import Mathlib

/-!
Verification development for the towel-freshness tracker worker
(`src/worker.mjs`).  The file shallowly embeds the parts of the worker the
claims are about:

* the freshness calculator (`calcStatus`, `daysSince`),
* the slot registry over the spreadsheet state (`getSlotsTable`,
  `listSlots`, `createSlot`, `refreshSlot`, `refreshByRoom`, `updateSlot`,
  `deleteSlot`, `listGroupsForUser`, `hasSlotAccess`),
* the token service (`jwtSignHS256`, `jwtVerifyHS256`, `timingSafeEq`,
  `b64url`, `b64ToBytes`) together with models of the platform builtins it
  uses (UTF-8 encode/decode, forgiving base64 / `atob`, `JSON.stringify`
  and `JSON.parse` restricted to the shapes the worker produces:
  integer-valued numbers and flat containers; IEEE-754 specifics such as
  NaN thresholds or float rendering are outside the rational-number
  embedding and are noted where relevant).

JavaScript numbers are modelled as `ℚ` (or `ℤ`/`ℕ` where the source only
produces integers), `NaN`-producing conversions as `Option`, thrown
exceptions as `Except`, and the remote spreadsheet as an explicit `Store`
value threaded through the operations.  Nondeterministic platform inputs
(`Date.now`, `crypto` randomness in `ulid`, `Date.parse`, the HMAC core)
are taken as explicit function parameters.
-/

namespace Towel

/-! ### Freshness calculator (worker.mjs `calcStatus` / `daysSince`) -/

/-- Display status tier, `score >= 40 ? "OK" : score >= 20 ? "WARN" : "EXPIRED"`. -/
inductive TStatus where
  | OK
  | WARN
  | EXPIRED
deriving DecidableEq, Repr

/-- `daysSince(iso)`: `Date.parse` is the platform parameter `dp`
(`none` = `NaN`); unparsable dates give age 0, otherwise
`Math.floor((Date.now() - t) / 86400000)` (floor division, so the age of a
future timestamp is negative). -/
def daysSince (dp : String → Option ℤ) (nowMs : ℤ) (iso : String) : ℤ :=
  match dp iso with
  | none => 0
  | some t => (nowMs - t).fdiv 86400000

/-- Result record of `calcStatus` (`{ d, score, status }`). -/
structure StatusOut where
  d : ℤ
  score : ℚ
  status : TStatus
deriving DecidableEq, Repr

/-- `Math.max` on real (non-`NaN`) arguments, written as an `if` so that
it evaluates inside the kernel (`max` on `ℚ` goes through the lattice
structure, whose `Decidable` field does not reduce); `jsMax_eq_max` below
identifies it with `max`. -/
def jsMax (a b : ℚ) : ℚ :=
  if a ≤ b then b else a

/-- `calcStatus(threshold_days, last_change_at)` with real-number (`ℚ`)
threshold; the `NaN` threshold case is handled by `calcStatusN` below. -/
def calcStatus (dp : String → Option ℤ) (nowMs : ℤ) (threshold_days : ℚ)
    (last_change_at : String) : StatusOut :=
  let d := daysSince dp nowMs last_change_at
  let load : ℚ := (d : ℚ) / jsMax 1 threshold_days
  let score : ℚ := jsMax 0 (100 - load * 100)
  { d := d, score := score,
    status := if 40 ≤ score then .OK else if 20 ≤ score then .WARN else .EXPIRED }

/-- `calcStatus` when the slot's `threshold_days` may be `NaN` (`none`):
`Math.max(1, NaN)` is `NaN`, the score is `NaN` (rendered `none`) and both
status comparisons are false, giving `"EXPIRED"`. -/
def calcStatusN (dp : String → Option ℤ) (nowMs : ℤ) (threshold_days : Option ℚ)
    (last_change_at : String) : ℤ × Option ℚ × TStatus :=
  match threshold_days with
  | some t =>
    let r := calcStatus dp nowMs t last_change_at
    (r.d, some r.score, r.status)
  | none => (daysSince dp nowMs last_change_at, none, .EXPIRED)

/-- `Math.max(1, Number(threshold_days) || 1)` as used by `createSlot` and
`updateSlot`; the input is the already-converted number (`none` = `NaN`). -/
def normalizeThreshold (v : Option ℚ) : ℚ :=
  jsMax 1 (match v with
           | none => 1
           | some q => if q = 0 then 1 else q)

/-- `String(value)` for the numbers the registry writes back to the sheet.
Integral values render exactly as in JS; for non-integral rationals JS
prints the shortest float decimal, which has no exact `ℚ` counterpart, so
the fraction rendering here is a stand-in (no claim evaluates it). -/
def qToCell (q : ℚ) : String :=
  if q.den = 1 then toString q.num else toString q

/-! ### Spreadsheet state and row parsing -/

/-- `String.prototype.trim()`, written over the character list so that it
evaluates inside the kernel (core `String.trim` recurses on byte
positions and does not reduce). -/
def jsTrim (s : String) : String :=
  String.mk (((s.data.dropWhile Char.isWhitespace).reverse.dropWhile
    Char.isWhitespace).reverse)

/-- Digit-string value, used for `Number(...)` of the legacy numeric
`group_id` cells. -/
def digitsToNat (ds : List Char) : ℕ :=
  ds.foldl (fun a c => 10 * a + (c.toNat - 48)) 0

/-- `Number(s)` on the decimal strings the sheet holds (`none` = `NaN`).
Models: trimmed empty string is 0, optional sign, digits with an optional
single fraction point.  Hex/exponent literals, which never occur in this
data, are out of scope. -/
def jsNumber (s : String) : Option ℚ :=
  let t := jsTrim s
  if t = "" then some 0
  else
    let (neg, ds) : Bool × List Char :=
      match t.data with
      | '-' :: r => (true, r)
      | '+' :: r => (false, r)
      | r => (false, r)
    let intPart := ds.takeWhile (·.isDigit)
    match ds.dropWhile (·.isDigit) with
    | [] =>
      if intPart = [] then none
      else some ((if neg then -1 else 1) * (digitsToNat intPart : ℚ))
    | '.' :: frac =>
      if frac.all (·.isDigit) ∧ ¬(intPart = [] ∧ frac = []) then
        some ((if neg then -1 else 1) *
          ((digitsToNat intPart : ℚ) + (digitsToNat frac : ℚ) / (10 : ℚ) ^ frac.length))
      else none
    | _ => none

/-- A parsed slot row (`parseSlotRow`).  `threshold_days` is `none` when
`Number(cell)` is `NaN`; `owner_fallback` is the legacy bare-numeric
owner id. -/
structure Slot where
  id : String
  name : String
  group_id : String
  room : String
  threshold_days : Option ℚ
  last_change_at : String
  sheet_row : ℕ
  owner_fallback : Option ℕ
deriving DecidableEq, Repr

/-- Audit event row appended to `events!A:E` by `logEvent`. -/
structure EventRec where
  ts : String
  slot_id : String
  action : String
  actor : String
  note : String
deriving DecidableEq, Repr

/-- The remote spreadsheet plus the id-generator counter: `slotRows` is
`slots!A2:F` (row `i` is sheet row `i+2`), `accessRows` is `access!A2:B`,
`events` is the append-only audit sheet.  `ctr` indexes the `ulid`
generator parameter. -/
structure Store where
  slotRows : List (List String)
  accessRows : List (List String)
  events : List EventRec
  ctr : ℕ
deriving DecidableEq, Repr

/-- Deterministic stand-ins for the platform inputs: `gen` for `ulid()`,
`dparse` for `Date.parse`, `nowMs`/`nowIso` for `Date.now()` /
`new Date().toISOString()`. -/
structure Ctx where
  gen : ℕ → String
  dparse : String → Option ℤ
  nowMs : ℤ
  nowIso : String

/-- Cell access: a missing cell reads as the empty string (JS `row[i]`
is `undefined`, used only through `|| ''` / truthiness in the source). -/
def cellD (row : List String) (i : ℕ) : String :=
  row.getD i ""

/-- Write cell `i` of a row, materialising implicit empty cells. -/
def setCell (row : List String) (i : ℕ) (v : String) : List String :=
  (row ++ List.replicate (i + 1 - row.length) "").set i v

/-- `parseSlotRow(row, rowNumber)`. -/
def parseSlotRow (ctx : Ctx) (row : List String) (rowNumber : ℕ) : Option Slot :=
  let id := jsTrim (cellD row 0)
  if id = "" then none
  else
    let g := jsTrim (cellD row 2)
    let isNum := g ≠ "" ∧ g.data.all (·.isDigit)
    some
      { id := id
        name := jsTrim (cellD row 1)
        group_id := if isNum then "tg:" ++ g else g
        room := jsTrim (cellD row 3)
        threshold_days := if cellD row 4 = "" then some 3 else jsNumber (cellD row 4)
        last_change_at := if cellD row 5 = "" then ctx.nowIso else cellD row 5
        sheet_row := rowNumber
        owner_fallback := if isNum then some (digitsToNat g.data) else none }

/-- The id backfill inside `getSlotsTable`: a row with an empty id but a
nonempty name gets a fresh `ulid()` written into column A. -/
def fixRow (ctx : Ctx) (ctr : ℕ) (row : List String) : List String × ℕ :=
  if jsTrim (cellD row 0) = "" ∧ jsTrim (cellD row 1) ≠ "" then
    (setCell row 0 (ctx.gen ctr), ctr + 1)
  else (row, ctr)

/-- Row loop of `getSlotsTable`: returns the parsed table, the rows after
id fixes, and the advanced generator counter. -/
def buildTable (ctx : Ctx) : List (List String) → ℕ → ℕ →
    List Slot × List (List String) × ℕ
  | [], _, ctr => ([], [], ctr)
  | row :: rest, rowNumber, ctr =>
    let rc := fixRow ctx ctr row
    let rec2 := buildTable ctx rest (rowNumber + 1) rc.2
    (match parseSlotRow ctx rc.1 rowNumber with
     | some s => s :: rec2.1
     | none => rec2.1,
     rc.1 :: rec2.2.1, rec2.2.2)

/-- `getSlotsTable(env)`: reads `slots!A2:F`, backfills missing ids (a
real `sheetsUpdate` write when any row needed fixing), returns parsed
slots. -/
def getSlotsTable (ctx : Ctx) (store : Store) : List Slot × Store :=
  let r := buildTable ctx store.slotRows 2 store.ctr
  (r.1, { store with slotRows := r.2.1, ctr := r.2.2 })

/-! ### Access resolution -/

/-- `listGroupsForUser(env, tg_user_id, { ensure })`: rows of
`access!A2:B` whose member column equals the user, keeping nonempty group
ids; with `ensure` and no match, appends and returns the self group. -/
def listGroupsForUser (store : Store) (user : String) (ensure : Bool) :
    List String × Store :=
  let ms :=
    ((store.accessRows.filter (fun r => cellD r 1 == user)).map (fun r => cellD r 0)).filter
      (· != "")
  if ms ≠ [] ∨ ensure = false then (ms, store)
  else
    let gid := "tg:" ++ user
    ([gid], { store with accessRows := store.accessRows ++ [[gid, user]] })

/-- The group-set computation repeated at each call site (`listSlots`,
`refreshSlot`, `updateSlot`, `deleteSlot`): the user's groups with
`ensure:false`, falling back to the non-persisted self group when empty.
This is the spec's `ResolveGroups(actor, ensureDefault=false)`. -/
def resolveGroupSet (store : Store) (user : String) : List String :=
  let m := (listGroupsForUser store user false).1
  if m = [] then ["tg:" ++ user] else m

/-- `hasSlotAccess(slot, userId, groupSet)`: `null` user is unrestricted;
otherwise group membership, else the legacy bare-numeric owner fallback
compared via `Number(...)` (`NaN === NaN` is false). -/
def hasSlotAccess (slot : Slot) (userId : Option String) (groupSet : List String) : Bool :=
  match userId with
  | none => true
  | some uid =>
    if slot.group_id != "" && groupSet.contains slot.group_id then true
    else
      match slot.owner_fallback with
      | some n =>
        match jsNumber uid with
        | some q => (n : ℚ) == q
        | none => false
      | none => false

/-- `getPrimaryGroupId(env, tg_user_id)` (ensure = true, may persist the
self group). -/
def getPrimaryGroupId (store : Store) (user : String) : String × Store :=
  let r := listGroupsForUser store user true
  (r.1.getD 0 ("tg:" ++ user), r.2)

/-! ### Slot registry operations -/

/-- Output row of `formatSlotForOutput` (metrics always computed; the
`includeMeta` flag only controls whether `sheet_row` is echoed to HTTP
clients, so the model keeps it unconditionally). -/
structure OutSlot where
  id : String
  name : String
  group_id : String
  room : String
  threshold_days : Option ℚ
  last_change_at : String
  d : ℤ
  score : Option ℚ
  status : TStatus
  sheet_row : ℕ
deriving DecidableEq, Repr

/-- `formatSlotForOutput(slot, includeMeta)`. -/
def formatSlotForOutput (ctx : Ctx) (s : Slot) : OutSlot :=
  let m := calcStatusN ctx.dparse ctx.nowMs s.threshold_days s.last_change_at
  { id := s.id, name := s.name, group_id := s.group_id, room := s.room,
    threshold_days := s.threshold_days, last_change_at := s.last_change_at,
    d := m.1, score := m.2.1, status := m.2.2, sheet_row := s.sheet_row }

/-- `listSlots(env, userFilter)`. -/
def listSlots (ctx : Ctx) (store : Store) (userFilter : Option String) :
    List OutSlot × Store :=
  let r := getSlotsTable ctx store
  match userFilter with
  | none => (r.1.map (formatSlotForOutput ctx), r.2)
  | some u =>
    let gs := resolveGroupSet r.2 u
    ((r.1.filter (fun s => hasSlotAccess s (some u) gs)).map (formatSlotForOutput ctx), r.2)

/-- The distinct failure conditions thrown by the mutating slot
operations (`Error('slot not found')` / `Error('forbidden')`). -/
inductive SlotErr where
  | notFound
  | forbidden
deriving DecidableEq, Repr

deriving instance DecidableEq for Except

/-- `String(actor || '')`. -/
def actorStr : Option String → String
  | some a => a
  | none => ""

/-- The guarded access check shared by `refreshSlot`, `updateSlot`,
`deleteSlot`: run only when an actor is supplied and nonempty. -/
def accessDenied (st : Store) (slot : Slot) (actor : Option String) : Bool :=
  match actor with
  | some a => a != "" && !(hasSlotAccess slot (some a) (resolveGroupSet st a))
  | none => false

/-- `logEvent(env, {...})`: append to `events!A:E`. -/
def logEvent (ctx : Ctx) (st : Store) (slot_id action actor note : String) : Store :=
  { st with events := st.events ++
      [{ ts := ctx.nowIso, slot_id := slot_id, action := action,
         actor := actor, note := note }] }

/-- One `sheetsUpdate` cell write: sets column `col` of the row stored at
index `i` of `slotRows`. -/
def writeCellAt (st : Store) (i col : ℕ) (v : String) : Store :=
  { st with slotRows := st.slotRows.set i (setCell (st.slotRows.getD i []) col v) }

/-- Write `nowIso` into column F (`last_change_at`) of the given sheet row. -/
def writeLastChange (ctx : Ctx) (st : Store) (sheetRow : ℕ) : Store :=
  writeCellAt st (sheetRow - 2) 5 ctx.nowIso

/-- `refreshSlot(env, id, { actor })`. -/
def refreshSlot (ctx : Ctx) (store : Store) (id : String) (actor : Option String) :
    Store × Except SlotErr Unit :=
  let r := getSlotsTable ctx store
  match r.1.find? (fun s => s.id == id) with
  | none => (r.2, .error .notFound)
  | some slot =>
    if accessDenied r.2 slot actor then (r.2, .error .forbidden)
    else
      (logEvent ctx (writeLastChange ctx r.2 slot.sheet_row) id "REFRESH" (actorStr actor) "",
       .ok ())

/-- `refreshByRoom(env, actorId, room)`: batch refresh of the actor's
slots whose room matches exactly; returns the updated count. -/
def refreshByRoom (ctx : Ctx) (store : Store) (actor : String) (room : String) :
    Store × ℕ :=
  let r := listSlots ctx store (some actor)
  let targets := r.1.filter (fun s => s.room == room)
  if targets.isEmpty then (r.2, 0)
  else
    let st2 := targets.foldl (fun st t => writeLastChange ctx st t.sheet_row) r.2
    let st3 := targets.foldl
      (fun st t => logEvent ctx st t.id "REFRESH" actor ("room:" ++ room)) st2
    (st3, targets.length)

/-- `JSON.stringify(patch)` rendering for the UPDATE event note; the
claims never inspect it, so the rendering of the optional fields is kept
schematic. -/
def patchNote (proom : Option String) (pth : Option (Option ℚ)) : String :=
  "\x7b" ++ (match proom with
             | some r => "\"room\":\"" ++ r ++ "\""
             | none => "")
    ++ (match pth with
        | some (some q) => ",\"threshold_days\":" ++ qToCell q
        | some none => ",\"threshold_days\":null"
        | none => "") ++ "\x7d"

/-- `updateSlot(env, id, patch, { actor })`: patches `room` (column D)
and/or `threshold_days` (column E, clamped through `normalizeThreshold`);
no write and no event when the patch is empty. -/
def updateSlot (ctx : Ctx) (store : Store) (id : String)
    (proom : Option String) (pth : Option (Option ℚ)) (actor : Option String) :
    Store × Except SlotErr Unit :=
  let r := getSlotsTable ctx store
  match r.1.find? (fun s => s.id == id) with
  | none => (r.2, .error .notFound)
  | some slot =>
    if accessDenied r.2 slot actor then (r.2, .error .forbidden)
    else
      let i := slot.sheet_row - 2
      let st2 := match proom with
        | some rm => writeCellAt r.2 i 3 rm
        | none => r.2
      let st3 := match pth with
        | some v => writeCellAt st2 i 4 (qToCell (normalizeThreshold v))
        | none => st2
      if proom = none ∧ pth = none then (r.2, .ok ())
      else (logEvent ctx st3 id "UPDATE" (actorStr actor) (patchNote proom pth), .ok ())

/-- `deleteSlot(env, id, { actor })`: removes the sheet row, then logs. -/
def deleteSlot (ctx : Ctx) (store : Store) (id : String) (actor : Option String) :
    Store × Except SlotErr Unit :=
  let r := getSlotsTable ctx store
  match r.1.find? (fun s => s.id == id) with
  | none => (r.2, .error .notFound)
  | some slot =>
    if accessDenied r.2 slot actor then (r.2, .error .forbidden)
    else
      let st2 := { r.2 with slotRows := r.2.slotRows.eraseIdx (slot.sheet_row - 2) }
      (logEvent ctx st2 id "DELETE" (actorStr actor) slot.name, .ok ())

/-- `createSlot(env, { name, owner_tg_id, room, threshold_days })`. -/
def createSlot (ctx : Ctx) (store : Store) (name : String) (owner : Option String)
    (room : String) (th : Option ℚ) : OutSlot × Store :=
  let nt := normalizeThreshold th
  let id := ctx.gen store.ctr
  let st0 := { store with ctr := store.ctr + 1 }
  let g := match owner with
    | some o => getPrimaryGroupId st0 o
    | none => ("", st0)
  let room' := jsTrim room
  let newRow := [id, name, g.1, room', qToCell nt, ctx.nowIso]
  let st1 := { g.2 with slotRows := g.2.slotRows ++ [newRow] }
  let st2 := logEvent ctx st1 id "CREATE" (actorStr owner) name
  let m := calcStatusN ctx.dparse ctx.nowMs (some nt) ctx.nowIso
  ({ id := id, name := name, group_id := g.1, room := room',
     threshold_days := some nt, last_change_at := ctx.nowIso,
     d := m.1, score := m.2.1, status := m.2.2, sheet_row := st1.slotRows.length + 1 },
   st2)

/-- The overdue test used by `runHourlyReminders`:
`daysSince(s.last_change_at) >= Number(s.threshold_days || 0)`
(`NaN` and `0` thresholds both coerce to 0). -/
def reminderOverdue (dp : String → Option ℤ) (nowMs : ℤ) (s : OutSlot) : Bool :=
  decide ((match s.threshold_days with
           | some t => if t = 0 then (0 : ℚ) else t
           | none => 0) ≤ (daysSince dp nowMs s.last_change_at : ℚ))

/-- The reminder path's selection of overdue slots
(`slots.filter(s => daysSince(...) >= Number(s.threshold_days || 0))`). -/
def overdueSlots (dp : String → Option ℤ) (nowMs : ℤ) (slots : List OutSlot) :
    List OutSlot :=
  slots.filter (reminderOverdue dp nowMs)

/-! ### UTF-8 (`TextEncoder` / `TextDecoder`) -/

/-- `TextEncoder().encode` of one scalar character. -/
def utf8EncodeChar (c : Char) : List ℕ :=
  let n := c.toNat
  if n < 128 then [n]
  else if n < 2048 then [192 + n / 64, 128 + n % 64]
  else if n < 65536 then [224 + n / 4096, 128 + n / 64 % 64, 128 + n % 64]
  else [240 + n / 262144, 128 + n / 4096 % 64, 128 + n / 64 % 64, 128 + n % 64]

/-- `TextEncoder().encode(s)` as a byte (sub-256 `ℕ`) list. -/
def utf8Bytes (s : String) : List ℕ :=
  (s.data.map utf8EncodeChar).flatten

/-- U+FFFD, what `TextDecoder` substitutes for malformed input. -/
def replChar : Char :=
  Char.ofNat 65533

/-- UTF-8 continuation byte test. -/
def contB (b : ℕ) : Bool :=
  128 ≤ b && b < 192

/-- `TextDecoder().decode`: total, substituting U+FFFD on malformed
sequences (the decoder never throws).  Overlong/surrogate re-checks are
elided; they cannot arise from `utf8EncodeChar` output, which is all the
verified paths feed it.  Fuelled by one unit per decoded character; each
step consumes at least one byte, so the byte count is sufficient fuel. -/
def utf8DecodeAux : ℕ → List ℕ → List Char
  | 0, _ => []
  | _ + 1, [] => []
  | f + 1, b :: rest =>
    if b < 128 then Char.ofNat b :: utf8DecodeAux f rest
    else if b < 192 then replChar :: utf8DecodeAux f rest
    else if b < 224 then
      match rest with
      | b1 :: r1 =>
        if contB b1 then Char.ofNat ((b - 192) * 64 + (b1 - 128)) :: utf8DecodeAux f r1
        else replChar :: utf8DecodeAux f rest
      | [] => [replChar]
    else if b < 240 then
      match rest with
      | b1 :: b2 :: r2 =>
        if contB b1 && contB b2 then
          Char.ofNat ((b - 224) * 4096 + (b1 - 128) * 64 + (b2 - 128)) :: utf8DecodeAux f r2
        else replChar :: utf8DecodeAux f rest
      | _ => replChar :: utf8DecodeAux f rest
    else
      match rest with
      | b1 :: b2 :: b3 :: r3 =>
        if contB b1 && contB b2 && contB b3 then
          Char.ofNat ((b - 240) * 262144 + (b1 - 128) * 4096 + (b2 - 128) * 64 + (b3 - 128)) ::
            utf8DecodeAux f r3
        else replChar :: utf8DecodeAux f rest
      | _ => replChar :: utf8DecodeAux f rest

/-- `TextDecoder().decode(bytes)`. -/
def utf8DecodeString (bytes : List ℕ) : String :=
  String.mk (utf8DecodeAux bytes.length bytes)

/-! ### Base64 (`btoa` / `atob` and the worker's `b64url` / `b64ToBytes`) -/

/-- The base64 alphabet. -/
def b64Alphabet : List Char :=
  "ABCDEFGHIJKLMNOPQRSTUVWXYZabcdefghijklmnopqrstuvwxyz0123456789+/".data

/-- Alphabet character of a 6-bit value. -/
def b64Char (v : ℕ) : Char :=
  b64Alphabet.getD v 'A'

/-- 6-bit value of an alphabet character (`none` when not in the
alphabet, which makes `atob` throw). -/
def b64Val (c : Char) : Option ℕ :=
  b64Alphabet.findIdx? (· == c)

/-- `btoa` over a byte list (the worker builds the binary string from a
`Uint8Array`, so each code unit is a byte). -/
def b64EncodeBytes : List ℕ → List Char
  | [] => []
  | [b0] => [b64Char (b0 / 4), b64Char (b0 % 4 * 16), '=', '=']
  | [b0, b1] => [b64Char (b0 / 4), b64Char (b0 % 4 * 16 + b1 / 16), b64Char (b1 % 16 * 4), '=']
  | b0 :: b1 :: b2 :: rest =>
    b64Char (b0 / 4) :: b64Char (b0 % 4 * 16 + b1 / 16) :: b64Char (b1 % 16 * 4 + b2 / 64) ::
      b64Char (b2 % 64) :: b64EncodeBytes rest

/-- The url-safe substitution: plus to dash, slash to underscore. -/
def urlSwapChar (c : Char) : Char :=
  if c = '+' then '-' else if c = '/' then '_' else c

/-- Undo the url-safe substitution: dash back to plus, underscore back to
slash. -/
def unUrlChar (c : Char) : Char :=
  if c = '-' then '+' else if c = '_' then '/' else c

/-- Strip all trailing padding characters (the regex replace of trailing
equals signs in `b64url`). -/
def dropTrailingEq (l : List Char) : List Char :=
  (l.reverse.dropWhile (· == '=')).reverse

/-- The worker's `b64url(bytes)`. -/
def b64url (bytes : List ℕ) : String :=
  String.mk (dropTrailingEq ((b64EncodeBytes bytes).map urlSwapChar))

/-- ASCII whitespace removed by forgiving-base64 decode. -/
def isB64Ws (c : Char) : Bool :=
  c == '\x09' || c == '\x0a' || c == '\x0c' || c == '\x0d' || c == ' '

/-- Strip up to two trailing `=` when the length is a multiple of 4. -/
def stripPad (l : List Char) : List Char :=
  if l.length % 4 = 0 then
    if l.reverse.head? = some '=' then
      if l.reverse.tail.head? = some '=' then l.reverse.tail.tail.reverse
      else l.reverse.tail.reverse
    else l
  else l

/-- Decode 6-bit groups to bytes; a trailing group of 2 or 3 characters
contributes 1 or 2 bytes and its slack bits are discarded (as
forgiving-base64 does — the discarded bits are not required to be zero).
A singleton tail cannot occur (length mod 4 = 1 is rejected first). -/
def b64DecodeVals : List ℕ → List ℕ
  | [] => []
  | [_] => []
  | [c0, c1] => [c0 * 4 + c1 / 16]
  | [c0, c1, c2] => [c0 * 4 + c1 / 16, c1 % 16 * 16 + c2 / 4]
  | c0 :: c1 :: c2 :: c3 :: rest =>
    (c0 * 4 + c1 / 16) :: (c1 % 16 * 16 + c2 / 4) :: (c2 % 4 * 64 + c3) :: b64DecodeVals rest

/-- The 6-bit values of `b64EncodeBytes` without the padding characters;
a proof-side restatement used to relate encoding and decoding. -/
def encValsB64 : List ℕ → List ℕ
  | [] => []
  | [b0] => [b0 / 4, b0 % 4 * 16]
  | [b0, b1] => [b0 / 4, b0 % 4 * 16 + b1 / 16, b1 % 16 * 4]
  | b0 :: b1 :: b2 :: rest =>
    b0 / 4 :: (b0 % 4 * 16 + b1 / 16) :: (b1 % 16 * 4 + b2 / 64) :: b2 % 64 :: encValsB64 rest

/-- The padding characters `b64EncodeBytes` appends, by input length;
proof-side companion of `encValsB64`. -/
def b64PadChars (bs : List ℕ) : List Char :=
  if bs.length % 3 = 1 then ['=', '=']
  else if bs.length % 3 = 2 then ['=']
  else []

/-- Map a fallible character decoder over a list, failing if any
character fails (the all-or-nothing alphabet check of forgiving
base64). -/
def mapOpt (f : Char → Option ℕ) : List Char → Option (List ℕ)
  | [] => some []
  | c :: cs =>
    match f c, mapOpt f cs with
    | some v, some vs => some (v :: vs)
    | _, _ => none

/-- `atob` (WHATWG forgiving-base64 decode); `none` models the thrown
`InvalidCharacterError`. -/
def atobForgiving (s : List Char) : Option (List ℕ) :=
  let t := s.filter (fun c => !(isB64Ws c))
  let t2 := stripPad t
  if t2.length % 4 = 1 then none
  else (mapOpt b64Val t2).map b64DecodeVals

/-- The worker's `b64ToBytes(b64)`: url-unswap, re-pad by length mod 4,
then `atob`. -/
def b64ToBytes (s : String) : Option (List ℕ) :=
  let t := s.data.map unUrlChar
  let pad := if t.length % 4 = 2 then ['=', '='] else if t.length % 4 = 3 then ['='] else []
  atobForgiving (t ++ pad)

/-! ### `String.prototype.split('.')` and `timingSafeEq` -/

/-- Loop of `split('.')`. -/
def splitDotAux : List Char → List Char → List String
  | [], cur => [String.mk cur.reverse]
  | c :: rest, cur =>
    if c = '.' then String.mk cur.reverse :: splitDotAux rest []
    else splitDotAux rest (c :: cur)

/-- `String(token).split('.')`. -/
def jsSplitDot (s : String) : List String :=
  splitDotAux s.data []

/-- `timingSafeEq(a, b)`: length check, then an accumulated OR of
bytewise XORs compared with 0. -/
def timingSafeEq (a b : List ℕ) : Bool :=
  if a.length ≠ b.length then false
  else ((List.zipWith (fun x y => x ^^^ y) a b).foldl (fun d x => d ||| x) 0) == 0

/-! ### JSON (`JSON.stringify` / `JSON.parse`)

The worker only ever stringifies flat objects with string and integer
fields, and a signed token only verifies when its payload segment is one
the signer produced; the `JSON.parse` model therefore covers numbers
without fraction/exponent parts and flat containers, failing (hence
`null` from the verifier's `try`) elsewhere, and elides surrogate-pair
recombination for `\u` escapes. -/

/-- JSON value (no array constructor: the worker's payloads are flat
objects of scalars, see the section comment). -/
inductive Json where
  | null
  | bool (b : Bool)
  | num (n : ℤ)
  | str (s : String)
  | obj (fields : List (String × Json))

/-- JS truthiness of a parsed JSON value. -/
def jsTruthy : Json → Bool
  | .null => false
  | .bool b => b
  | .num n => n != 0
  | .str s => s != ""
  | .obj _ => true

/-- Property access `payload[k]` (`none` = `undefined`; duplicate keys:
last one wins, as in `JSON.parse`). -/
def jsGetField (j : Json) (k : String) : Option Json :=
  match j with
  | .obj fs => (fs.reverse.find? (fun p => p.1 == k)).map (·.2)
  | _ => none

/-- `Number(v)` of a parsed JSON value (`none` = `NaN`). -/
def jsToNumber : Json → Option ℚ
  | .null => some 0
  | .bool b => some (if b then 1 else 0)
  | .num n => some (n : ℚ)
  | .str s => jsNumber s
  | .obj _ => none

/-- JSON insignificant whitespace. -/
def isJsonWs (c : Char) : Bool :=
  c == ' ' || c == '\x09' || c == '\x0a' || c == '\x0d'

/-- Skip insignificant whitespace. -/
def skipWs (l : List Char) : List Char :=
  l.dropWhile isJsonWs

/-- Single-character string escapes accepted by `JSON.parse`. -/
def escCharJ (c : Char) : Option Char :=
  if c = '"' then some '"'
  else if c = '\\' then some '\\'
  else if c = '/' then some '/'
  else if c = 'b' then some '\x08'
  else if c = 'f' then some '\x0c'
  else if c = 'n' then some '\x0a'
  else if c = 'r' then some '\x0d'
  else if c = 't' then some '\x09'
  else none

/-- Hex digit value (both cases). -/
def hexVal (c : Char) : Option ℕ :=
  if c.isDigit then some (c.toNat - 48)
  else if 'a' ≤ c ∧ c ≤ 'f' then some (c.toNat - 87)
  else if 'A' ≤ c ∧ c ≤ 'F' then some (c.toNat - 55)
  else none

/-- JSON string body parser (after the opening quote), returning the
decoded characters and the rest after the closing quote.  Raw control
characters are rejected, as `JSON.parse` does. -/
def parseJStr : List Char → Option (List Char × List Char)
  | [] => none
  | c :: rest =>
    if c = '"' then some ([], rest)
    else if c = '\\' then
      match rest with
      | [] => none
      | e :: rest2 =>
        if e = 'u' then
          match rest2 with
          | h1 :: h2 :: h3 :: h4 :: rest3 =>
            match hexVal h1, hexVal h2, hexVal h3, hexVal h4 with
            | some a, some b, some c4, some d =>
              (parseJStr rest3).map
                (fun p => (Char.ofNat (a * 4096 + b * 256 + c4 * 16 + d) :: p.1, p.2))
            | _, _, _, _ => none
          | _ => none
        else
          match escCharJ e with
          | some ec => (parseJStr rest2).map (fun p => (ec :: p.1, p.2))
          | none => none
    else if c.toNat < 32 then none
    else (parseJStr rest).map (fun p => (c :: p.1, p.2))

/-- JSON unsigned integer literal (leading-zero rule enforced). -/
def parseJNum (cs : List Char) : Option (ℕ × List Char) :=
  match cs.takeWhile (·.isDigit) with
  | [] => none
  | d :: ds' =>
    if d = '0' ∧ ds' ≠ [] then none
    else some (digitsToNat (d :: ds'), cs.dropWhile (·.isDigit))

/-- Scalar JSON value parser (`null` / booleans / strings / integer
numbers). -/
def parseScalar (cs : List Char) : Option (Json × List Char) :=
  if ['n', 'u', 'l', 'l'].isPrefixOf cs then some (.null, cs.drop 4)
  else if ['t', 'r', 'u', 'e'].isPrefixOf cs then some (.bool true, cs.drop 4)
  else if ['f', 'a', 'l', 's', 'e'].isPrefixOf cs then some (.bool false, cs.drop 5)
  else
    match cs with
    | [] => none
    | c :: rest =>
      if c = '"' then (parseJStr rest).map (fun p => (.str (String.mk p.1), p.2))
      else if c = '-' then (parseJNum rest).map (fun p => (.num (-(p.1 : ℤ)), p.2))
      else if c.isDigit then (parseJNum cs).map (fun p => (.num (p.1 : ℤ), p.2))
      else none

/-- Member list of a JSON object, entered just after `{` (for a nonempty
object) or after a `,`; fuelled by the input length. -/
def parseMembers : ℕ → List Char → Option (List (String × Json) × List Char)
  | 0, _ => none
  | f + 1, cs =>
    match skipWs cs with
    | [] => none
    | c :: rest =>
      if c = '"' then
        match parseJStr rest with
        | none => none
        | some (k, r1) =>
          match skipWs r1 with
          | [] => none
          | c2 :: r2 =>
            if c2 = ':' then
              match parseScalar (skipWs r2) with
              | none => none
              | some (v, r3) =>
                match skipWs r3 with
                | [] => none
                | c3 :: r4 =>
                  if c3 = ',' then
                    (parseMembers f r4).map (fun p => ((String.mk k, v) :: p.1, p.2))
                  else if c3 = '\x7d' then some ([(String.mk k, v)], r4)
                  else none
            else none
      else none

/-- Top-level JSON value parser. -/
def parseVal (fuel : ℕ) (cs : List Char) : Option (Json × List Char) :=
  match skipWs cs with
  | [] => none
  | c :: rest =>
    if c = '\x7b' then
      match skipWs rest with
      | d :: r2 =>
        if d = '\x7d' then some (.obj [], r2)
        else (parseMembers fuel rest).map (fun p => (.obj p.1, p.2))
      | [] => none
    else parseScalar (c :: rest)

/-- `JSON.parse` (`none` models the thrown `SyntaxError`, which the
verifier catches). -/
def jsonParse (s : String) : Option Json :=
  match parseVal (s.length + 1) s.data with
  | some (j, rest) => if skipWs rest = [] then some j else none
  | none => none

/-- Lowercase hex digit used by `JSON.stringify` control escapes. -/
def hexCharL (n : ℕ) : Char :=
  if n < 10 then Char.ofNat (48 + n) else Char.ofNat (87 + n)

/-- `QuoteJSONString` escaping of one character. -/
def quoteJsonChar (c : Char) : List Char :=
  if c = '"' then ['\\', '"']
  else if c = '\\' then ['\\', '\\']
  else if c = '\x08' then ['\\', 'b']
  else if c = '\x09' then ['\\', 't']
  else if c = '\x0a' then ['\\', 'n']
  else if c = '\x0c' then ['\\', 'f']
  else if c = '\x0d' then ['\\', 'r']
  else if c.toNat < 32 then ['\\', 'u', '0', '0', hexCharL (c.toNat / 16), hexCharL (c.toNat % 16)]
  else [c]

/-- ASCII digit character. -/
def digitChar (n : ℕ) : Char :=
  Char.ofNat (48 + n)

/-- Decimal digits of a natural number, most significant first (fuelled;
`natToChars` supplies enough fuel). -/
def natToDigitsAux : ℕ → ℕ → List Char
  | 0, _ => []
  | f + 1, n => if n < 10 then [digitChar n] else natToDigitsAux f (n / 10) ++ [digitChar (n % 10)]

/-- Decimal rendering of a natural number. -/
def natToChars (n : ℕ) : List Char :=
  natToDigitsAux (n + 1) n

/-- Decimal rendering of an integer (JS number-to-string for integral
values). -/
def intToChars (i : ℤ) : List Char :=
  if i < 0 then '-' :: natToChars (-i).toNat else natToChars i.toNat

/-- `JSON.stringify({ ...payload, iat, exp })` for the session payloads
the worker signs (`payload` is `{ sub: String(...) }` at every call
site), with `QuoteJSONString` escaping of the subject. -/
def stringifySession (sub : String) (iat exp : ℤ) : String :=
  String.mk ('\x7b' :: "\"sub\":\"".data ++ (sub.data.map quoteJsonChar).flatten
    ++ "\",\"iat\":".data ++ intToChars iat ++ ",\"exp\":".data ++ intToChars exp ++ ['\x7d'])

/-! ### Token service (`jwtSignHS256` / `jwtVerifyHS256`) -/

/-- The HMAC-SHA256 core (`crypto.subtle.sign`) as an abstract
deterministic function from secret and message to MAC bytes; the
`TextEncoder` step on its inputs is absorbed into the parameter. -/
abbrev MacFn := String → String → List ℕ

/-- `hmacSign(secret, dataBytes)`: MAC then `b64url`. -/
def hmacSign (mac : MacFn) (secret data : String) : String :=
  b64url (mac secret data)

/-- `JSON.stringify({ alg: "HS256", typ: "JWT" })`. -/
def headerJson : String :=
  "\x7b\"alg\":\"HS256\",\"typ\":\"JWT\"\x7d"

/-- `b64url` of the UTF-8 bytes of a string. -/
def b64urlOfString (s : String) : String :=
  b64url (utf8Bytes s)

/-- `jwtSignHS256(payload, secret, ttlSec)` with `payload = { sub }`,
`iat = Math.floor(Date.now()/1000)`, `exp = iat + Number(ttlSec || 900)`. -/
def jwtSignHS256 (mac : MacFn) (sub : String) (secret : String) (nowSec : ℕ)
    (ttlSec : ℤ) : String :=
  let e : ℤ := (nowSec : ℤ) + (if ttlSec = 0 then 900 else ttlSec)
  let h := b64urlOfString headerJson
  let p := b64urlOfString (stringifySession sub (nowSec : ℤ) e)
  let sig := hmacSign mac secret (h ++ "." ++ p)
  h ++ "." ++ p ++ "." ++ sig

/-- `jwtVerifyHS256(token, secret)`.  `.error ()` models an uncaught
exception: `b64ToBytes` on the signature (and on the recomputed
signature) runs outside the `try` block, so an undecodable segment
throws; everything inside the `try` collapses to `.ok none` (`null`). -/
def jwtVerifyHS256 (mac : MacFn) (secret token : String) (nowSec : ℕ) :
    Except Unit (Option Json) :=
  match jsSplitDot token with
  | [h, p, s] =>
    let expected := hmacSign mac secret (h ++ "." ++ p)
    match b64ToBytes s with
    | none => .error ()
    | some sb =>
      match b64ToBytes expected with
      | none => .error ()
      | some eb =>
        if timingSafeEq sb eb then
          match b64ToBytes p with
          | none => .ok none
          | some pb =>
            match jsonParse (utf8DecodeString pb) with
            | none => .ok none
            | some payload =>
              if !(jsTruthy payload) then .ok none
              else
                match jsGetField payload "exp" with
                | none => .ok none
                | some ex =>
                  if !(jsTruthy ex) then .ok none
                  else
                    match jsToNumber ex with
                    | none => .ok (some payload)
                    | some x => if (nowSec : ℚ) > x then .ok none else .ok (some payload)
        else .ok none
  | _ => .ok none

/-- A fixed all-zero 32-byte MAC, used to exhibit concrete token behaviour. -/
def macZero : MacFn := fun _ _ => List.replicate 32 0

/-- A concrete issued token (subject "u", secret "s", time 0, ttl 100). -/
def c3Token : String := jwtSignHS256 macZero "u" "s" 0 100

/-- The same token with its final signature character changed from A to C:
a single-bit change (codes 65 and 67 differ only in bit 1) confined to the
two slack bits of the final base64 digit. -/
def c3Tampered : String := String.mk (c3Token.data.dropLast ++ ['C'])

/-! ## Theorems -/

/-! ### Freshness calculator claims -/

theorem jsMax_eq_max (a b : ℚ) : jsMax a b = max a b := by
  unfold jsMax
  rw [max_def]

theorem status_if_iff (S : ℚ) :
    ((if 40 ≤ S then TStatus.OK else if 20 ≤ S then TStatus.WARN else TStatus.EXPIRED) =
        TStatus.OK ↔ 40 ≤ S) ∧
    ((if 40 ≤ S then TStatus.OK else if 20 ≤ S then TStatus.WARN else TStatus.EXPIRED) =
        TStatus.WARN ↔ 20 ≤ S ∧ S < 40) ∧
    ((if 40 ≤ S then TStatus.OK else if 20 ≤ S then TStatus.WARN else TStatus.EXPIRED) =
        TStatus.EXPIRED ↔ S < 20) := by
  split_ifs with h1 h2
  · exact ⟨iff_of_true rfl h1,
      iff_of_false (by simp) (by rintro ⟨_, h3⟩; linarith),
      iff_of_false (by simp) (by intro h; linarith)⟩
  · exact ⟨iff_of_false (by simp) h1,
      iff_of_true rfl ⟨h2, not_le.mp h1⟩,
      iff_of_false (by simp) (by intro h; linarith)⟩
  · exact ⟨iff_of_false (by simp) h1,
      iff_of_false (by simp) (by rintro ⟨h3, _⟩; exact h2 h3),
      iff_of_true rfl (not_le.mp h2)⟩

/-- C1: for every thresholdDays ≥ 1 and every lastChangeAt whose computed
ageDays is ≥ 0, `calcStatus` returns
`score = max(0, 100 - 100*ageDays/thresholdDays)`, the status is `"OK"`
exactly when `score ≥ 40`, `"WARN"` exactly when `20 ≤ score < 40`,
`"EXPIRED"` exactly when `score < 20`, and the boundaries are exact:
thresholdDays 10 with ageDays 6/7/9 gives score 40/30/10 and status
OK/WARN/EXPIRED. -/
theorem C1_score_status_boundaries (dp : String → Option ℤ) (nowMs : ℤ) (t : ℚ)
    (iso : String) (ht : 1 ≤ t) (hd : 0 ≤ (calcStatus dp nowMs t iso).d) :
    (calcStatus dp nowMs t iso).score =
      max 0 (100 - 100 * ((calcStatus dp nowMs t iso).d : ℚ) / t) ∧
    ((calcStatus dp nowMs t iso).status = .OK ↔ 40 ≤ (calcStatus dp nowMs t iso).score) ∧
    ((calcStatus dp nowMs t iso).status = .WARN ↔
      20 ≤ (calcStatus dp nowMs t iso).score ∧ (calcStatus dp nowMs t iso).score < 40) ∧
    ((calcStatus dp nowMs t iso).status = .EXPIRED ↔ (calcStatus dp nowMs t iso).score < 20) ∧
    calcStatus (fun _ => some 0) (6 * 86400000) 10 "x" = ⟨6, 40, .OK⟩ ∧
    calcStatus (fun _ => some 0) (7 * 86400000) 10 "x" = ⟨7, 30, .WARN⟩ ∧
    calcStatus (fun _ => some 0) (9 * 86400000) 10 "x" = ⟨9, 10, .EXPIRED⟩ := by
  have hmax : max (1 : ℚ) t = t := max_eq_right ht
  have h6 : daysSince (fun _ => some 0) (6 * 86400000) "x" = 6 := by
    simp only [daysSince]; decide
  have h7 : daysSince (fun _ => some 0) (7 * 86400000) "x" = 7 := by
    simp only [daysSince]; decide
  have h9 : daysSince (fun _ => some 0) (9 * 86400000) "x" = 9 := by
    simp only [daysSince]; decide
  refine ⟨?_, ?_, ?_, ?_,
    by simp only [calcStatus, jsMax_eq_max, h6]; norm_num [max_def, StatusOut.mk.injEq],
    by simp only [calcStatus, jsMax_eq_max, h7]; norm_num [max_def, StatusOut.mk.injEq],
    by simp only [calcStatus, jsMax_eq_max, h9]; norm_num [max_def, StatusOut.mk.injEq]⟩ <;>
    simp only [calcStatus, jsMax_eq_max, hmax]
  · ring_nf
  · exact (status_if_iff _).1
  · exact (status_if_iff _).2.1
  · exact (status_if_iff _).2.2

/-- C1 witness at thresholdDays 10, lastChangeAt parsing to epoch 0,
now at day 6. -/
theorem C1_score_status_boundaries_witness :
    (calcStatus (fun _ => some 0) (6 * 86400000) 10 "x").score =
      max 0 (100 - 100 * ((calcStatus (fun _ => some 0) (6 * 86400000) 10 "x").d : ℚ) / 10) ∧
    ((calcStatus (fun _ => some 0) (6 * 86400000) 10 "x").status = .OK ↔
      40 ≤ (calcStatus (fun _ => some 0) (6 * 86400000) 10 "x").score) := by
  have h := C1_score_status_boundaries (fun _ => some 0) (6 * 86400000) 10 "x"
    (by norm_num) (by decide)
  exact ⟨h.1, h.2.1⟩

/-- C8 counterexample: the claim quantifies over past **or future**
`lastChangeAt`.  For a parsable timestamp two days in the future
(`Date.parse` returning 172800000 with now = 0, e.g. the ISO date
1970-01-03 at epoch 0), ageDays is -2 and the score is 120 > 100: the
score is not bounded by 100. -/
theorem C8_future_counterexample :
    (calcStatus (fun _ => some 172800000) 0 10 "1970-01-03T00:00:00.000Z").d = -2 ∧
    (calcStatus (fun _ => some 172800000) 0 10 "1970-01-03T00:00:00.000Z").score = 120 ∧
    ¬((calcStatus (fun _ => some 172800000) 0 10 "1970-01-03T00:00:00.000Z").score ≤ 100) := by
  have hfd : daysSince (fun _ => some 172800000) 0 "1970-01-03T00:00:00.000Z" = -2 := by
    simp only [daysSince]; decide
  simp only [calcStatus, jsMax_eq_max, hfd]
  norm_num [max_def]

/-- C8 (amended): when the computed ageDays is ≥ 0 (lastChangeAt
unparsable or not in the future), the load is ≥ 0, the score lies in
[0, 100], and score = 100 exactly when ageDays = 0 — for every threshold
(the divisor is clamped to ≥ 1). -/
theorem C8_score_range_amended (dp : String → Option ℤ) (nowMs : ℤ) (t : ℚ)
    (iso : String) (hd : 0 ≤ (calcStatus dp nowMs t iso).d) :
    0 ≤ ((calcStatus dp nowMs t iso).d : ℚ) / max 1 t ∧
    0 ≤ (calcStatus dp nowMs t iso).score ∧
    (calcStatus dp nowMs t iso).score ≤ 100 ∧
    ((calcStatus dp nowMs t iso).score = 100 ↔ (calcStatus dp nowMs t iso).d = 0) := by
  have hpos : (0 : ℚ) < max 1 t := lt_of_lt_of_le one_pos (le_max_left 1 t)
  simp only [calcStatus, jsMax_eq_max] at hd ⊢
  set d := daysSince dp nowMs iso with hdd
  have hdq : (0 : ℚ) ≤ (d : ℚ) := by exact_mod_cast hd
  have hload : (0 : ℚ) ≤ (d : ℚ) / max 1 t := div_nonneg hdq hpos.le
  refine ⟨hload, le_max_left 0 _, ?_, ?_⟩
  · have : (100 : ℚ) - (d : ℚ) / max 1 t * 100 ≤ 100 := by nlinarith
    exact max_le (by norm_num) this
  · constructor
    · intro h
      by_contra hne
      have hd1 : (1 : ℤ) ≤ d := lt_of_le_of_ne hd (Ne.symm hne)
      have hd1q : (1 : ℚ) ≤ (d : ℚ) := by exact_mod_cast hd1
      have hloadpos : (0 : ℚ) < (d : ℚ) / max 1 t :=
        div_pos (lt_of_lt_of_le one_pos hd1q) hpos
      have hlt : (100 : ℚ) - (d : ℚ) / max 1 t * 100 < 100 := by nlinarith
      have : max 0 ((100 : ℚ) - (d : ℚ) / max 1 t * 100) < 100 :=
        max_lt (by norm_num) hlt
      rw [h] at this
      exact absurd this (lt_irrefl _)
    · intro h
      rw [h]
      norm_num

/-- C8 amended witness at threshold 10 and ageDays 0. -/
theorem C8_score_range_amended_witness :
    0 ≤ ((calcStatus (fun _ => some 0) 0 10 "x").d : ℚ) / max 1 10 ∧
    (calcStatus (fun _ => some 0) 0 10 "x").score ≤ 100 := by
  have h := C8_score_range_amended (fun _ => some 0) 0 10 "x" (by decide)
  exact ⟨h.1, h.2.2.1⟩

/-- C9: the reminder path's overdue test holds exactly when
ageDays ≥ thresholdDays (for numeric thresholds; a 0 threshold coerces
through `|| 0` to the same bound), and it diverges from the display
status: at thresholdDays 10 and ageDays 7 the status is WARN while the
slot is not overdue. -/
theorem C9_overdue_binary_test (dp : String → Option ℤ) (nowMs : ℤ) :
    (∀ (s : OutSlot) (t : ℚ), s.threshold_days = some t →
      (reminderOverdue dp nowMs s = true ↔
        t ≤ (daysSince dp nowMs s.last_change_at : ℚ))) ∧
    (calcStatus (fun _ => some 0) (7 * 86400000) 10 "x").status = .WARN ∧
    reminderOverdue (fun _ => some 0) (7 * 86400000)
      { id := "s", name := "n", group_id := "tg:1", room := "", threshold_days := some 10,
        last_change_at := "x", d := 7, score := some 30, status := .WARN,
        sheet_row := 2 } = false := by
  have h7 : daysSince (fun _ => some 0) (7 * 86400000) "x" = 7 := by
    simp only [daysSince]; decide
  refine ⟨?_, by simp only [calcStatus, jsMax_eq_max, h7]; norm_num [max_def], by decide⟩
  intro s t h
  simp only [reminderOverdue, h, decide_eq_true_eq]
  split_ifs with h0
  · subst h0; exact Iff.rfl
  · exact Iff.rfl

/-- C9 witness: a slot with threshold 5 and age 7 is selected. -/
theorem C9_overdue_binary_test_witness :
    reminderOverdue (fun _ => some 0) (7 * 86400000)
      { id := "s", name := "n", group_id := "tg:1", room := "", threshold_days := some 5,
        last_change_at := "x", d := 7, score := some 0, status := .EXPIRED,
        sheet_row := 2 } = true ∧
    (5 : ℚ) ≤ (daysSince (fun _ => some 0) (7 * 86400000) "x" : ℚ) := by
  have h := (C9_overdue_binary_test (fun _ => some 0) (7 * 86400000)).1
    { id := "s", name := "n", group_id := "tg:1", room := "", threshold_days := some 5,
      last_change_at := "x", d := 7, score := some 0, status := .EXPIRED,
      sheet_row := 2 } 5 rfl
  have h5 : (5 : ℚ) ≤ (daysSince (fun _ => some 0) (7 * 86400000) "x" : ℚ) := by decide
  exact ⟨h.mpr h5, h5⟩

/-! ### Registry and access-control lemmas -/

theorem getSlotsTable_events (ctx : Ctx) (store : Store) :
    (getSlotsTable ctx store).2.events = store.events := rfl

theorem getSlotsTable_access (ctx : Ctx) (store : Store) :
    (getSlotsTable ctx store).2.accessRows = store.accessRows := rfl

theorem listGroupsForUser_false_store (store : Store) (u : String) :
    (listGroupsForUser store u false).2 = store := by
  simp [listGroupsForUser]

theorem listGroupsForUser_slotRows (store : Store) (u : String) (e : Bool) :
    (listGroupsForUser store u e).2.slotRows = store.slotRows := by
  simp only [listGroupsForUser]
  split <;> rfl

theorem listGroupsForUser_ctr (store : Store) (u : String) (e : Bool) :
    (listGroupsForUser store u e).2.ctr = store.ctr := by
  simp only [listGroupsForUser]
  split <;> rfl

theorem listSlots_store (ctx : Ctx) (store : Store) (u : Option String) :
    (listSlots ctx store u).2 = (getSlotsTable ctx store).2 := by
  simp only [listSlots]
  cases u <;> rfl

theorem parseSlotRow_sheet_row (ctx : Ctx) (row : List String) (rn : ℕ) (s : Slot)
    (h : parseSlotRow ctx row rn = some s) : s.sheet_row = rn := by
  simp only [parseSlotRow] at h
  split at h
  · exact absurd h (by simp)
  · simp only [Option.some.injEq] at h
    rw [← h]

theorem buildTable_rows_length (ctx : Ctx) (rows : List (List String)) (rn c : ℕ) :
    (buildTable ctx rows rn c).2.1.length = rows.length := by
  induction rows generalizing rn c with
  | nil => rfl
  | cons row rest ih =>
    simp only [buildTable]
    simp [ih]

theorem buildTable_sheet_row_bounds (ctx : Ctx) (rows : List (List String)) (rn c : ℕ) :
    ∀ s ∈ (buildTable ctx rows rn c).1, rn ≤ s.sheet_row ∧ s.sheet_row < rn + rows.length := by
  induction rows generalizing rn c with
  | nil => intro s hs; simp [buildTable] at hs
  | cons row rest ih =>
    intro s hs
    simp only [buildTable] at hs
    split at hs
    next s0 hparse =>
      rcases List.mem_cons.mp hs with h | h
      · subst h
        have hsr := parseSlotRow_sheet_row ctx _ rn s hparse
        simp only [List.length_cons]
        omega
      · have := ih (rn + 1) (fixRow ctx c row).2 s h
        simp only [List.length_cons]
        omega
    next hparse =>
      have := ih (rn + 1) (fixRow ctx c row).2 s hs
      simp only [List.length_cons]
      omega

theorem getSlotsTable_slot_bounds (ctx : Ctx) (store : Store) :
    ∀ s ∈ (getSlotsTable ctx store).1,
      2 ≤ s.sheet_row ∧ s.sheet_row - 2 < (getSlotsTable ctx store).2.slotRows.length := by
  intro s hs
  have h1 := buildTable_sheet_row_bounds ctx store.slotRows 2 store.ctr s hs
  have h2 := buildTable_rows_length ctx store.slotRows 2 store.ctr
  unfold getSlotsTable
  simp only
  omega

/-- C6: an actor with no registered membership row resolves, with
`ensure` = false, to the non-persisted self group `tg:<actorId>`:
`listGroupsForUser` returns no groups and performs no write, and the
call-site fallback (`resolveGroupSet`) supplies `tg:<actorId>`. -/
theorem C6_selfgroup_fallback (store : Store) (a : String)
    (h : ∀ r ∈ store.accessRows, cellD r 1 ≠ a) :
    listGroupsForUser store a false = ([], store) ∧
    resolveGroupSet store a = ["tg:" ++ a] := by
  have hms : (store.accessRows.filter (fun r => cellD r 1 == a)) = [] := by
    rw [List.filter_eq_nil_iff]
    intro r hr
    simpa using h r hr
  have h1 : listGroupsForUser store a false = ([], store) := by
    unfold listGroupsForUser
    rw [hms]
    simp
  refine ⟨h1, ?_⟩
  unfold resolveGroupSet
  rw [h1]
  simp

/-- C6 witness: actor "555" with an access sheet containing only another
user's membership. -/
theorem C6_selfgroup_fallback_witness :
    listGroupsForUser { slotRows := [], accessRows := [["g1", "777"]], events := [], ctr := 0 }
        "555" false =
      ([], { slotRows := [], accessRows := [["g1", "777"]], events := [], ctr := 0 }) ∧
    resolveGroupSet { slotRows := [], accessRows := [["g1", "777"]], events := [], ctr := 0 }
        "555" = ["tg:" ++ "555"] := by
  exact C6_selfgroup_fallback _ "555" (by decide)

theorem getPrimaryGroupId_slotRows (st : Store) (o : String) :
    (getPrimaryGroupId st o).2.slotRows = st.slotRows := by
  simp only [getPrimaryGroupId]
  exact listGroupsForUser_slotRows st o true

theorem logEvent_slotRows (ctx : Ctx) (st : Store) (a b c d : String) :
    (logEvent ctx st a b c d).slotRows = st.slotRows := rfl

theorem cellD_setCell (r : List String) (i : ℕ) (v : String) :
    cellD (setCell r i v) i = v := by
  unfold cellD setCell
  have hlen : i < (r ++ List.replicate (i + 1 - r.length) "").length := by
    simp only [List.length_append, List.length_replicate]
    omega
  rw [List.getD_eq_getElem?_getD, List.getElem?_set_eq_of_lt _ hlen]
  rfl

theorem getD_set_self {α : Type} (l : List α) (i : ℕ) (x d : α) (h : i < l.length) :
    (l.set i x).getD i d = x := by
  rw [List.getD_eq_getElem?_getD, List.getElem?_set_eq_of_lt _ h]
  rfl

/-- C5 (amended): a mutating operation (refresh, update, delete) on an
id absent from the loaded table yields `not found`; on a present slot the
actor cannot access it yields the distinct `forbidden`; and a `forbidden`
denial appends no event and performs no membership write — the store it
leaves behind is exactly the one produced by the table load, whose only
write is the id backfill of malformed rows (which the original claim's
"no storage write" overlooks; see the counterexample). -/
theorem C5_notfound_forbidden_amended (ctx : Ctx) (store : Store) (id a : String)
    (proom : Option String) (pth : Option (Option ℚ)) (ha : a ≠ "") :
    ((getSlotsTable ctx store).1.find? (fun s => s.id == id) = none →
      refreshSlot ctx store id (some a) = ((getSlotsTable ctx store).2, .error .notFound) ∧
      updateSlot ctx store id proom pth (some a) =
        ((getSlotsTable ctx store).2, .error .notFound) ∧
      deleteSlot ctx store id (some a) = ((getSlotsTable ctx store).2, .error .notFound)) ∧
    (∀ slot, (getSlotsTable ctx store).1.find? (fun s => s.id == id) = some slot →
      hasSlotAccess slot (some a) (resolveGroupSet (getSlotsTable ctx store).2 a) = false →
      refreshSlot ctx store id (some a) = ((getSlotsTable ctx store).2, .error .forbidden) ∧
      updateSlot ctx store id proom pth (some a) =
        ((getSlotsTable ctx store).2, .error .forbidden) ∧
      deleteSlot ctx store id (some a) = ((getSlotsTable ctx store).2, .error .forbidden)) ∧
    SlotErr.notFound ≠ SlotErr.forbidden ∧
    (getSlotsTable ctx store).2.events = store.events ∧
    (getSlotsTable ctx store).2.accessRows = store.accessRows := by
  refine ⟨?_, ?_, by decide, rfl, rfl⟩
  · intro hf
    refine ⟨?_, ?_, ?_⟩ <;> simp [refreshSlot, updateSlot, deleteSlot, hf]
  · intro slot hf hacc
    have hden : accessDenied (getSlotsTable ctx store).2 slot (some a) = true := by
      simp [accessDenied, hacc, ha]
    refine ⟨?_, ?_, ?_⟩ <;> simp [refreshSlot, updateSlot, deleteSlot, hf, hden]

/-- C5 counterexample: the claim also asserts that when the operation is
denied with `forbidden`, *no* storage write has occurred.  With a
malformed row present (empty id, nonempty name), the table load inside
the denied `refreshSlot` backfills a fresh id with a real `sheetsUpdate`
write before the `forbidden` is thrown: the denial is correct, but the
slot sheet has been written. -/
theorem C5_forbidden_write_counterexample :
    (refreshSlot
        { gen := fun n => "id" ++ toString n, dparse := fun _ => none, nowMs := 0,
          nowIso := "T0" }
        { slotRows := [["", "Towel", "", "", "", ""], ["s1", "Mine", "tg:999", "", "", "2020"]],
          accessRows := [], events := [], ctr := 0 }
        "s1" (some "555")).2 = .error .forbidden ∧
    (refreshSlot
        { gen := fun n => "id" ++ toString n, dparse := fun _ => none, nowMs := 0,
          nowIso := "T0" }
        { slotRows := [["", "Towel", "", "", "", ""], ["s1", "Mine", "tg:999", "", "", "2020"]],
          accessRows := [], events := [], ctr := 0 }
        "s1" (some "555")).1.slotRows ≠
      [["", "Towel", "", "", "", ""], ["s1", "Mine", "tg:999", "", "", "2020"]] := by
  exact ⟨by decide, by decide⟩

/-- C5 witness: on a well-formed sheet (no id backfill needed), a missing
id gives `not found` and an inaccessible slot gives `forbidden`, leaving
the store untouched. -/
theorem C5_notfound_forbidden_amended_witness :
    refreshSlot
        { gen := fun n => "id" ++ toString n, dparse := fun _ => none, nowMs := 0,
          nowIso := "T0" }
        { slotRows := [["s1", "Mine", "tg:999", "", "", "2020"]],
          accessRows := [], events := [], ctr := 0 }
        "zz" (some "555") =
      ({ slotRows := [["s1", "Mine", "tg:999", "", "", "2020"]],
         accessRows := [], events := [], ctr := 0 }, .error .notFound) ∧
    refreshSlot
        { gen := fun n => "id" ++ toString n, dparse := fun _ => none, nowMs := 0,
          nowIso := "T0" }
        { slotRows := [["s1", "Mine", "tg:999", "", "", "2020"]],
          accessRows := [], events := [], ctr := 0 }
        "s1" (some "555") =
      ({ slotRows := [["s1", "Mine", "tg:999", "", "", "2020"]],
         accessRows := [], events := [], ctr := 0 }, .error .forbidden) := by
  have h1 := (C5_notfound_forbidden_amended
    { gen := fun n => "id" ++ toString n, dparse := fun _ => none, nowMs := 0, nowIso := "T0" }
    { slotRows := [["s1", "Mine", "tg:999", "", "", "2020"]],
      accessRows := [], events := [], ctr := 0 }
    "zz" "555" none none (by decide)).1 (by decide)
  have h2 := (C5_notfound_forbidden_amended
    { gen := fun n => "id" ++ toString n, dparse := fun _ => none, nowMs := 0, nowIso := "T0" }
    { slotRows := [["s1", "Mine", "tg:999", "", "", "2020"]],
      accessRows := [], events := [], ctr := 0 }
    "s1" "555" none none (by decide)).2.1
    { id := "s1", name := "Mine", group_id := "tg:999", room := "",
      threshold_days := some 3, last_change_at := "2020", sheet_row := 2,
      owner_fallback := none }
    (by decide) (by decide)
  exact ⟨h1.1, h2.1⟩

/-- C10 (amended): when no slot visible to the actor matches the room
exactly, `refreshByRoom` reports 0 updated, appends no event, performs no
membership write, and leaves the store exactly as the table load left it
— the only write that can have happened is the id backfill of malformed
rows during that load (which the original claim's "no storage write"
overlooks; see the counterexample). -/
theorem C10_empty_match_noop_amended (ctx : Ctx) (store : Store) (a room : String)
    (h : ∀ s ∈ (listSlots ctx store (some a)).1, s.room ≠ room) :
    refreshByRoom ctx store a room = ((getSlotsTable ctx store).2, 0) ∧
    (refreshByRoom ctx store a room).1.events = store.events ∧
    (refreshByRoom ctx store a room).1.accessRows = store.accessRows := by
  have htargets : ((listSlots ctx store (some a)).1.filter (fun s => s.room == room)) = [] := by
    rw [List.filter_eq_nil_iff]
    intro s hs
    simpa using h s hs
  have hmain : refreshByRoom ctx store a room = ((getSlotsTable ctx store).2, 0) := by
    simp only [refreshByRoom, htargets]
    simp [listSlots_store]
  exact ⟨hmain, by rw [hmain]; rfl, by rw [hmain]; rfl⟩

/-- C10 counterexample: the claim asserts no storage write happens on an
empty match set.  With a malformed row (empty id, nonempty name) in the
sheet, `refreshByRoom` still reports 0 updated for an unmatched room, but
the table load it performs has backfilled the row's id — a storage
write. -/
theorem C10_idfix_write_counterexample :
    (refreshByRoom
        { gen := fun n => "id" ++ toString n, dparse := fun _ => none, nowMs := 0,
          nowIso := "T0" }
        { slotRows := [["", "Towel", "", "", "", ""]],
          accessRows := [], events := [], ctr := 0 }
        "555" "Bath").2 = 0 ∧
    (refreshByRoom
        { gen := fun n => "id" ++ toString n, dparse := fun _ => none, nowMs := 0,
          nowIso := "T0" }
        { slotRows := [["", "Towel", "", "", "", ""]],
          accessRows := [], events := [], ctr := 0 }
        "555" "Bath").1.slotRows ≠ [["", "Towel", "", "", "", ""]] := by
  exact ⟨by decide, by decide⟩

/-- C10 witness: a visible slot in room "Kitchen" is not matched by a
batch refresh of room "Bath": 0 updated, no write, no event. -/
theorem C10_empty_match_noop_amended_witness :
    refreshByRoom
        { gen := fun n => "id" ++ toString n, dparse := fun _ => none, nowMs := 0,
          nowIso := "T0" }
        { slotRows := [["s1", "Mine", "tg:555", "Kitchen", "", "2020"]],
          accessRows := [["tg:555", "555"]], events := [], ctr := 0 }
        "555" "Bath" =
      ({ slotRows := [["s1", "Mine", "tg:555", "Kitchen", "", "2020"]],
         accessRows := [["tg:555", "555"]], events := [], ctr := 0 }, 0) := by
  have h := (C10_empty_match_noop_amended
    { gen := fun n => "id" ++ toString n, dparse := fun _ => none, nowMs := 0, nowIso := "T0" }
    { slotRows := [["s1", "Mine", "tg:555", "Kitchen", "", "2020"]],
      accessRows := [["tg:555", "555"]], events := [], ctr := 0 }
    "555" "Bath" (by decide)).1
  exact h

/-- C7: every write of `threshold_days` goes through
`Math.max(1, Number(v) || 1)`: the normalized value is always ≥ 1, every
value ≤ 0 (and non-numeric input) is clamped to exactly 1, `createSlot`
stores the normalized value in column E of the appended row, and a
successful `updateSlot` with a threshold patch stores the normalized
value in column E of the patched row. -/
theorem C7_threshold_clamped :
    (∀ v : Option ℚ, 1 ≤ normalizeThreshold v) ∧
    (∀ q : ℚ, q ≤ 0 → normalizeThreshold (some q) = 1) ∧
    (normalizeThreshold none = 1) ∧
    (∀ ctx store name owner room v,
      (createSlot ctx store name owner room v).1.threshold_days =
        some (normalizeThreshold v) ∧
      ∃ gid, (createSlot ctx store name owner room v).2.slotRows =
        store.slotRows ++
          [[ctx.gen store.ctr, name, gid, jsTrim room, qToCell (normalizeThreshold v),
            ctx.nowIso]]) ∧
    (∀ ctx store id v store' u,
      updateSlot ctx store id none (some v) none = (store', .ok u) →
      ∃ i, i < store'.slotRows.length ∧
        cellD (store'.slotRows.getD i []) 4 = qToCell (normalizeThreshold v)) := by
  have hge : ∀ v : Option ℚ, 1 ≤ normalizeThreshold v := by
    intro v
    simp only [normalizeThreshold, jsMax_eq_max]
    exact le_max_left 1 _
  refine ⟨hge, ?_, ?_, ?_, ?_⟩
  · intro q hq
    simp only [normalizeThreshold, jsMax_eq_max]
    split_ifs with h0
    · simp
    · exact max_eq_left (by linarith)
  · simp only [normalizeThreshold, jsMax_eq_max]
    simp
  · intro ctx store name owner room v
    constructor
    · rfl
    · cases owner with
      | none => exact ⟨"", rfl⟩
      | some o =>
        refine ⟨(getPrimaryGroupId { store with ctr := store.ctr + 1 } o).1, ?_⟩
        simp only [createSlot, logEvent]
        rw [getPrimaryGroupId_slotRows]
  · intro ctx store id v store' u h
    simp only [updateSlot] at h
    rcases hf : (getSlotsTable ctx store).1.find? (fun s => s.id == id) with _ | slot
    · rw [hf] at h
      simp at h
    · rw [hf] at h
      have hden : accessDenied (getSlotsTable ctx store).2 slot none = false := rfl
      simp only [hden, Bool.false_eq_true, if_false, true_and, reduceCtorEq, reduceIte] at h
      have hbounds := getSlotsTable_slot_bounds ctx store slot (List.mem_of_find?_eq_some hf)
      have hrows : store'.slotRows =
          (getSlotsTable ctx store).2.slotRows.set (slot.sheet_row - 2)
            (setCell ((getSlotsTable ctx store).2.slotRows.getD (slot.sheet_row - 2) []) 4
              (qToCell (normalizeThreshold v))) := by
        have := congrArg Prod.fst h
        simp only [writeCellAt, logEvent] at this ⊢
        rw [← this]
      refine ⟨slot.sheet_row - 2, ?_, ?_⟩
      · rw [hrows, List.length_set]
        exact hbounds.2
      · rw [hrows, getD_set_self _ _ _ _ hbounds.2, cellD_setCell]

/-- C7 witness: a create with threshold input -5 and a successful update
with threshold input 0 both store the clamped value 1. -/
theorem C7_threshold_clamped_witness :
    normalizeThreshold (some (-5)) = 1 ∧
    (1 : ℚ) ≤ normalizeThreshold (some 0) ∧
    (∃ i, i < ((updateSlot
        { gen := fun n => "id" ++ toString n, dparse := fun _ => none, nowMs := 0,
          nowIso := "T0" }
        { slotRows := [["s1", "Mine", "tg:999", "", "", "2020"]],
          accessRows := [], events := [], ctr := 0 }
        "s1" none (some (some 0)) none).1).slotRows.length ∧
      cellD (((updateSlot
        { gen := fun n => "id" ++ toString n, dparse := fun _ => none, nowMs := 0,
          nowIso := "T0" }
        { slotRows := [["s1", "Mine", "tg:999", "", "", "2020"]],
          accessRows := [], events := [], ctr := 0 }
        "s1" none (some (some 0)) none).1).slotRows.getD i []) 4 =
        qToCell (normalizeThreshold (some 0))) := by
  refine ⟨C7_threshold_clamped.2.1 (-5) (by norm_num),
    C7_threshold_clamped.1 (some 0), ?_⟩
  exact C7_threshold_clamped.2.2.2.2
    { gen := fun n => "id" ++ toString n, dparse := fun _ => none, nowMs := 0, nowIso := "T0" }
    { slotRows := [["s1", "Mine", "tg:999", "", "", "2020"]],
      accessRows := [], events := [], ctr := 0 }
    "s1" (some 0) _ () (by decide)

/-! ### Token-service lemmas: `timingSafeEq` and `split('.')` -/

theorem or_eq_zero_nat {m n : ℕ} (h : m ||| n = 0) : m = 0 ∧ n = 0 := by
  constructor <;> apply Nat.eq_of_testBit_eq <;> intro i <;>
    have h2 := congrArg (Nat.testBit · i) h <;>
    simp only [Nat.testBit_or, Nat.zero_testBit, Bool.or_eq_false_iff] at h2 <;>
    simp [Nat.zero_testBit, h2]

theorem foldl_or_eq_zero (l : List ℕ) (d : ℕ) :
    l.foldl (fun a x => a ||| x) d = 0 ↔ d = 0 ∧ ∀ x ∈ l, x = 0 := by
  induction l generalizing d with
  | nil => simp
  | cons x l ih =>
    simp only [List.foldl_cons, ih, List.mem_cons]
    constructor
    · rintro ⟨hdx, hall⟩
      obtain ⟨hd, hx⟩ := or_eq_zero_nat hdx
      exact ⟨hd, fun y hy => hy.elim (fun e => e ▸ hx) (hall y)⟩
    · rintro ⟨hd, hall⟩
      subst hd
      have hx := hall x (Or.inl rfl)
      subst hx
      exact ⟨rfl, fun y hy => hall y (Or.inr hy)⟩

theorem zipWith_xor_eq (a b : List ℕ) (hlen : a.length = b.length)
    (h : ∀ x ∈ List.zipWith (fun x y => x ^^^ y) a b, x = 0) : a = b := by
  induction a generalizing b with
  | nil => cases b <;> simp_all
  | cons x xs ih =>
    cases b with
    | nil => simp at hlen
    | cons y ys =>
      simp only [List.zipWith_cons_cons, List.mem_cons] at h
      have hx : x = y := Nat.xor_eq_zero.mp (h _ (Or.inl rfl))
      have hys : xs = ys := by
        apply ih _ (by simpa using hlen)
        intro z hz
        exact h z (Or.inr hz)
      rw [hx, hys]

theorem timingSafeEq_iff (a b : List ℕ) : timingSafeEq a b = true ↔ a = b := by
  unfold timingSafeEq
  split_ifs with hlen
  · simp only [Bool.false_eq_true, false_iff]
    intro h
    exact hlen (by rw [h])
  · push_neg at hlen
    rw [beq_iff_eq, foldl_or_eq_zero]
    constructor
    · rintro ⟨-, hall⟩
      exact zipWith_xor_eq a b hlen hall
    · rintro rfl
      refine ⟨rfl, ?_⟩
      intro x hx
      rw [List.zipWith_same] at hx
      obtain ⟨y, -, rfl⟩ := List.mem_map.mp hx
      exact Nat.xor_self y

theorem timingSafeEq_self (a : List ℕ) : timingSafeEq a a = true :=
  (timingSafeEq_iff a a).mpr rfl

theorem string_mk_data (s : String) : String.mk s.data = s := rfl

theorem splitDotAux_no_dot (xs : List Char) (acc : List Char)
    (h : ∀ c ∈ xs, c ≠ '.') :
    splitDotAux xs acc = [String.mk (acc.reverse ++ xs)] := by
  induction xs generalizing acc with
  | nil => simp [splitDotAux]
  | cons c xs ih =>
    have hc : c ≠ '.' := h c (List.mem_cons_self c xs)
    simp only [splitDotAux, if_neg hc]
    rw [ih (c :: acc) (fun d hd => h d (List.mem_cons_of_mem c hd))]
    simp

theorem splitDotAux_dot_split (xs rest acc : List Char)
    (h : ∀ c ∈ xs, c ≠ '.') :
    splitDotAux (xs ++ '.' :: rest) acc =
      String.mk (acc.reverse ++ xs) :: splitDotAux rest [] := by
  induction xs generalizing acc with
  | nil => simp [splitDotAux]
  | cons c xs ih =>
    have hc : c ≠ '.' := h c (List.mem_cons_self c xs)
    simp only [List.cons_append, splitDotAux, if_neg hc, List.append_eq]
    rw [ih (c :: acc) (fun d hd => h d (List.mem_cons_of_mem c hd))]
    simp

theorem jsSplitDot_three (h p s : String)
    (hh : ∀ c ∈ h.data, c ≠ '.') (hp : ∀ c ∈ p.data, c ≠ '.')
    (hs : ∀ c ∈ s.data, c ≠ '.') :
    jsSplitDot (h ++ "." ++ p ++ "." ++ s) = [h, p, s] := by
  have hdata : (h ++ "." ++ p ++ "." ++ s).data =
      h.data ++ '.' :: (p.data ++ '.' :: s.data) := by
    simp [String.data_append]
  unfold jsSplitDot
  rw [hdata, splitDotAux_dot_split _ _ _ hh, splitDotAux_dot_split _ _ _ hp,
    splitDotAux_no_dot _ _ hs]
  simp [string_mk_data]

/-! ### Base64 round trip -/

theorem encVals_lt64 (bs : List ℕ) (h : ∀ b ∈ bs, b < 256) :
    ∀ v ∈ encValsB64 bs, v < 64 := by
  induction bs using encValsB64.induct with
  | case1 => simp [encValsB64]
  | case2 b0 =>
    intro v hv
    simp [encValsB64] at hv
    have := h b0 (by simp)
    rcases hv with rfl | rfl <;> omega
  | case3 b0 b1 =>
    intro v hv
    simp [encValsB64] at hv
    have h0 := h b0 (by simp)
    have h1 := h b1 (by simp)
    rcases hv with rfl | rfl | rfl <;> omega
  | case4 b0 b1 b2 rest ih =>
    intro v hv
    simp only [encValsB64, List.mem_cons] at hv
    have h0 := h b0 (by simp)
    have h1 := h b1 (by simp)
    have h2 := h b2 (by simp)
    rcases hv with rfl | rfl | rfl | rfl | hv
    · omega
    · omega
    · omega
    · omega
    · exact ih (fun b hb => h b (by simp [hb])) v hv

theorem encVals_length (bs : List ℕ) :
    (encValsB64 bs).length = bs.length + (bs.length + 2) / 3 := by
  induction bs using encValsB64.induct with
  | case1 => simp [encValsB64]
  | case2 b0 => simp [encValsB64]
  | case3 b0 b1 => simp [encValsB64]
  | case4 b0 b1 b2 rest ih =>
    simp only [encValsB64, List.length_cons, ih]
    omega

theorem b64EncodeBytes_eq (bs : List ℕ) :
    b64EncodeBytes bs = (encValsB64 bs).map b64Char ++ b64PadChars bs := by
  induction bs using encValsB64.induct with
  | case1 => rfl
  | case2 b0 => rfl
  | case3 b0 b1 => rfl
  | case4 b0 b1 b2 rest ih =>
    simp only [b64EncodeBytes, encValsB64, List.map_cons, List.cons_append, ih]
    have hpad : b64PadChars (b0 :: b1 :: b2 :: rest) = b64PadChars rest := by
      simp only [b64PadChars, List.length_cons]
      have h3 : (rest.length + 1 + 1 + 1) % 3 = rest.length % 3 := by omega
      simp only [h3]
    rw [hpad]

theorem b64Char_lt64_val : ∀ v, v < 64 → b64Val (b64Char v) = some v := by decide

theorem b64Char_swap_unswap : ∀ v, v < 64 →
    unUrlChar (urlSwapChar (b64Char v)) = b64Char v := by decide

theorem b64Char_not_ws : ∀ v, v < 64 → isB64Ws (b64Char v) = false := by decide

theorem b64Char_ne_eq : ∀ v, v < 64 → b64Char v ≠ '=' := by decide

theorem b64Char_swap_ne_eq : ∀ v, v < 64 → urlSwapChar (b64Char v) ≠ '=' := by decide

theorem b64Char_swap_ne_dot : ∀ v, v < 64 → urlSwapChar (b64Char v) ≠ '.' := by decide

theorem eq_ws_false : isB64Ws '=' = false := by decide

theorem dropTrailingEq_append (xs pad : List Char) (hpad : ∀ c ∈ pad, c = '=')
    (hxs : ∀ c ∈ xs, c ≠ '=') : dropTrailingEq (xs ++ pad) = xs := by
  unfold dropTrailingEq
  rw [List.reverse_append, List.dropWhile_append]
  have h1 : (pad.reverse.dropWhile (· == '=')) = [] := by
    rw [List.dropWhile_eq_nil_iff]
    intro c hc
    simp [hpad c (List.mem_reverse.mp hc)]
  rw [h1]
  simp only [List.isEmpty_nil, if_true]
  have h2 : (xs.reverse.dropWhile (· == '=')) = xs.reverse := by
    cases hx : xs.reverse with
    | nil => simp
    | cons y t =>
      have hy : y ∈ xs := List.mem_reverse.mp (hx ▸ List.mem_cons_self y t)
      rw [List.dropWhile_cons, if_neg]
      simp [hxs y hy]
  rw [h2, List.reverse_reverse]

theorem stripPad_no_eq (l : List Char) (h : ∀ c ∈ l, c ≠ '=') : stripPad l = l := by
  unfold stripPad
  split_ifs with h4 hh1 hh2 <;> try rfl
  all_goals
    exfalso
    cases hx : l.reverse with
    | nil => rw [hx] at hh1; simp at hh1
    | cons y t =>
      rw [hx] at hh1
      simp only [List.head?_cons, Option.some.injEq] at hh1
      exact h y (List.mem_reverse.mp (hx ▸ List.mem_cons_self y t)) hh1

theorem stripPad_append2 (core : List Char) (hlen : (core.length + 2) % 4 = 0) :
    stripPad (core ++ ['=', '=']) = core := by
  unfold stripPad
  rw [List.reverse_append]
  simp only [List.length_append, List.length_cons, List.length_nil]
  rw [if_pos (by omega)]
  simp

theorem stripPad_append1 (core : List Char) (hlen : (core.length + 1) % 4 = 0)
    (hcore : ∀ c ∈ core, c ≠ '=') :
    stripPad (core ++ ['=']) = core := by
  unfold stripPad
  rw [List.reverse_append]
  simp only [List.length_append, List.length_cons, List.length_nil]
  rw [if_pos (by omega)]
  simp only [List.reverse_cons, List.reverse_nil, List.nil_append, List.cons_append,
    List.head?_cons, Option.some.injEq, List.tail_cons, if_true]
  have h2 : core.reverse.head? ≠ some '=' := by
    cases hx : core.reverse with
    | nil => simp
    | cons y t =>
      simp only [List.head?_cons, ne_eq, Option.some.injEq]
      exact hcore y (List.mem_reverse.mp (hx ▸ List.mem_cons_self y t))
  rw [if_neg h2, List.reverse_reverse]

theorem mapOpt_b64Val_map (vs : List ℕ) (h : ∀ v ∈ vs, v < 64) :
    mapOpt b64Val (vs.map b64Char) = some vs := by
  induction vs with
  | nil => rfl
  | cons v vs ih =>
    simp only [List.map_cons, mapOpt]
    rw [b64Char_lt64_val v (h v (by simp)), ih (fun w hw => h w (by simp [hw]))]

theorem b64DecodeVals_encVals (bs : List ℕ) (h : ∀ b ∈ bs, b < 256) :
    b64DecodeVals (encValsB64 bs) = bs := by
  induction bs using encValsB64.induct with
  | case1 => rfl
  | case2 b0 =>
    have h0 := h b0 (by simp)
    simp only [encValsB64, b64DecodeVals, List.cons.injEq, and_true]
    omega
  | case3 b0 b1 =>
    have h0 := h b0 (by simp)
    have h1 := h b1 (by simp)
    simp only [encValsB64, b64DecodeVals, List.cons.injEq, and_true]
    omega
  | case4 b0 b1 b2 rest ih =>
    have h0 := h b0 (by simp)
    have h1 := h b1 (by simp)
    have h2 := h b2 (by simp)
    simp only [encValsB64, b64DecodeVals, List.cons.injEq]
    refine ⟨by omega, by omega, by omega, ?_⟩
    exact ih (fun b hb => h b (by simp [hb]))

theorem b64url_data (bs : List ℕ) (h : ∀ b ∈ bs, b < 256) :
    (b64url bs).data = ((encValsB64 bs).map b64Char).map urlSwapChar := by
  have hv64 := encVals_lt64 bs h
  unfold b64url
  rw [b64EncodeBytes_eq, List.map_append]
  have hswpad : (b64PadChars bs).map urlSwapChar = b64PadChars bs := by
    apply List.map_congr_left ?_ |>.trans (List.map_id _)
    intro c hc
    have hce : c = '=' := by
      unfold b64PadChars at hc
      split_ifs at hc <;> simp_all
    subst hce
    rfl
  rw [hswpad, dropTrailingEq_append]
  · intro c hc
    unfold b64PadChars at hc
    split_ifs at hc <;> simp_all
  · intro c hc
    rw [List.mem_map] at hc
    obtain ⟨cc, hcc, rfl⟩ := hc
    rw [List.mem_map] at hcc
    obtain ⟨v, hv, rfl⟩ := hcc
    exact b64Char_swap_ne_eq v (hv64 v hv)

theorem b64ToBytes_b64url (bs : List ℕ) (h : ∀ b ∈ bs, b < 256) :
    b64ToBytes (b64url bs) = some bs := by
  have hv64 := encVals_lt64 bs h
  have hunswap : (((encValsB64 bs).map b64Char).map urlSwapChar).map unUrlChar =
      (encValsB64 bs).map b64Char := by
    rw [List.map_map, List.map_map]
    apply List.map_congr_left
    intro v hv
    exact b64Char_swap_unswap v (hv64 v hv)
  simp only [b64ToBytes]
  rw [b64url_data bs h, hunswap]
  set core := (encValsB64 bs).map b64Char with hcore
  have hclen : core.length = bs.length + (bs.length + 2) / 3 := by
    rw [hcore, List.length_map, encVals_length]
  have hcore_ne_eq : ∀ c ∈ core, c ≠ '=' := by
    intro c hc
    rw [hcore, List.mem_map] at hc
    obtain ⟨v, hv, rfl⟩ := hc
    exact b64Char_ne_eq v (hv64 v hv)
  have hcore_not_ws : ∀ c ∈ core, isB64Ws c = false := by
    intro c hc
    rw [hcore, List.mem_map] at hc
    obtain ⟨v, hv, rfl⟩ := hc
    exact b64Char_not_ws v (hv64 v hv)
  have hdecode : mapOpt b64Val core = some (encValsB64 bs) := by
    rw [hcore]
    exact mapOpt_b64Val_map _ hv64
  have hmod : bs.length % 3 = 0 ∨ bs.length % 3 = 1 ∨ bs.length % 3 = 2 := by omega
  rcases hmod with hmod | hmod | hmod
  · have hpadlen : core.length % 4 = 0 := by omega
    rw [if_neg (by omega), if_neg (by omega)]
    simp only [List.append_nil]
    simp only [atobForgiving]
    rw [List.filter_eq_self.mpr (by intro c hc; simp [hcore_not_ws c hc])]
    rw [stripPad_no_eq core hcore_ne_eq]
    rw [if_neg (by omega), hdecode]
    simp [b64DecodeVals_encVals bs h]
  · have hpadlen : core.length % 4 = 2 := by omega
    rw [if_pos (by omega)]
    simp only [atobForgiving]
    have hws : (core ++ ['=', '=']).filter (fun c => !(isB64Ws c)) = core ++ ['=', '='] := by
      rw [List.filter_eq_self]
      intro c hc
      rcases List.mem_append.mp hc with hc | hc
      · simp [hcore_not_ws c hc]
      · simp at hc
        rcases hc with rfl | rfl <;> simp [eq_ws_false]
    rw [hws, stripPad_append2 core (by omega)]
    rw [if_neg (by omega), hdecode]
    simp [b64DecodeVals_encVals bs h]
  · have hpadlen : core.length % 4 = 3 := by omega
    rw [if_neg (by omega), if_pos (by omega)]
    simp only [atobForgiving]
    have hws : (core ++ ['=']).filter (fun c => !(isB64Ws c)) = core ++ ['='] := by
      rw [List.filter_eq_self]
      intro c hc
      rcases List.mem_append.mp hc with hc | hc
      · simp [hcore_not_ws c hc]
      · simp at hc
        subst hc
        simp [eq_ws_false]
    rw [hws, stripPad_append1 core (by omega) hcore_ne_eq]
    rw [if_neg (by omega), hdecode]
    simp [b64DecodeVals_encVals bs h]

/-! ### UTF-8 round trip -/

theorem char_valid_ranges (c : Char) :
    c.toNat < 55296 ∨ (57343 < c.toNat ∧ c.toNat < 1114112) := by
  have h := c.valid
  unfold UInt32.isValidChar Nat.isValidChar at h
  exact h

theorem utf8EncodeChar_lt256 (c : Char) : ∀ b ∈ utf8EncodeChar c, b < 256 := by
  have hlt : c.toNat < 1114112 := by
    rcases char_valid_ranges c with h | h <;> omega
  intro b hb
  simp only [utf8EncodeChar] at hb
  split_ifs at hb <;> simp at hb <;> omega

theorem utf8Bytes_lt256 (s : String) : ∀ b ∈ utf8Bytes s, b < 256 := by
  intro b hb
  unfold utf8Bytes at hb
  rw [List.mem_flatten] at hb
  obtain ⟨l, hl, hb⟩ := hb
  rw [List.mem_map] at hl
  obtain ⟨c, -, rfl⟩ := hl
  exact utf8EncodeChar_lt256 c b hb

theorem utf8_step (f : ℕ) (c : Char) (rest : List ℕ) :
    utf8DecodeAux (f + 1) (utf8EncodeChar c ++ rest) = c :: utf8DecodeAux f rest := by
  have hval := char_valid_ranges c
  have hlt : c.toNat < 1114112 := by omega
  by_cases h1 : c.toNat < 128
  · simp only [utf8EncodeChar, if_pos h1, List.cons_append, List.nil_append]
    simp only [utf8DecodeAux, if_pos h1, Char.ofNat_toNat]
  · by_cases h2 : c.toNat < 2048
    · simp only [utf8EncodeChar, if_neg h1, if_pos h2, List.cons_append, List.nil_append]
      simp only [utf8DecodeAux]
      rw [if_neg (by omega), if_neg (by omega), if_pos (by omega)]
      have hcont : contB (128 + c.toNat % 64) = true := by
        simp only [contB, Bool.and_eq_true, decide_eq_true_eq]
        omega
      rw [if_pos hcont]
      have harg : (192 + c.toNat / 64 - 192) * 64 + (128 + c.toNat % 64 - 128) = c.toNat := by
        omega
      rw [harg, Char.ofNat_toNat]
    · by_cases h3 : c.toNat < 65536
      · simp only [utf8EncodeChar, if_neg h1, if_neg h2, if_pos h3, List.cons_append,
          List.nil_append]
        simp only [utf8DecodeAux]
        rw [if_neg (by omega), if_neg (by omega), if_neg (by omega), if_pos (by omega)]
        have hcont : (contB (128 + c.toNat / 64 % 64) && contB (128 + c.toNat % 64)) = true := by
          simp only [contB, Bool.and_eq_true, decide_eq_true_eq]
          omega
        rw [if_pos hcont]
        have harg : (224 + c.toNat / 4096 - 224) * 4096 + (128 + c.toNat / 64 % 64 - 128) * 64 +
            (128 + c.toNat % 64 - 128) = c.toNat := by omega
        rw [harg, Char.ofNat_toNat]
      · simp only [utf8EncodeChar, if_neg h1, if_neg h2, if_neg h3, List.cons_append,
          List.nil_append]
        simp only [utf8DecodeAux]
        rw [if_neg (by omega), if_neg (by omega), if_neg (by omega), if_neg (by omega)]
        have hcont : (contB (128 + c.toNat / 4096 % 64) && contB (128 + c.toNat / 64 % 64) &&
            contB (128 + c.toNat % 64)) = true := by
          simp only [contB, Bool.and_eq_true, decide_eq_true_eq]
          omega
        rw [if_pos hcont]
        have harg : (240 + c.toNat / 262144 - 240) * 262144 +
            (128 + c.toNat / 4096 % 64 - 128) * 4096 +
            (128 + c.toNat / 64 % 64 - 128) * 64 + (128 + c.toNat % 64 - 128) = c.toNat := by
          omega
        rw [harg, Char.ofNat_toNat]

theorem utf8_chain (cs : List Char) (f : ℕ) (tail : List ℕ) :
    utf8DecodeAux (cs.length + f) ((cs.map utf8EncodeChar).flatten ++ tail) =
      cs ++ utf8DecodeAux f tail := by
  induction cs generalizing f with
  | nil => simp
  | cons c cs ih =>
    simp only [List.map_cons, List.flatten_cons, List.length_cons, List.append_assoc,
      List.cons_append]
    have hfuel : cs.length + 1 + f = (cs.length + f) + 1 := by omega
    rw [hfuel, utf8_step, ih f]

theorem length_le_utf8Bytes (s : String) : s.data.length ≤ (utf8Bytes s).length := by
  unfold utf8Bytes
  induction s.data with
  | nil => simp
  | cons c cs ih =>
    simp only [List.map_cons, List.flatten_cons, List.length_cons, List.length_append]
    have hpos : 1 ≤ (utf8EncodeChar c).length := by
      simp only [utf8EncodeChar]
      split_ifs <;> simp
    omega

theorem utf8_roundtrip (s : String) : utf8DecodeString (utf8Bytes s) = s := by
  unfold utf8DecodeString
  have hlen := length_le_utf8Bytes s
  obtain ⟨f, hf⟩ : ∃ f, (utf8Bytes s).length = s.data.length + f :=
    ⟨(utf8Bytes s).length - s.data.length, by omega⟩
  rw [hf]
  have h := utf8_chain s.data f []
  rw [List.append_nil] at h
  unfold utf8Bytes
  rw [h]
  have hdec : utf8DecodeAux f [] = [] := by
    cases f <;> rfl
  rw [hdec, List.append_nil, string_mk_data]

/-! ### Decimal digits round trip -/

theorem isDigit_toNat (c : Char) (h : c.isDigit = true) : 48 ≤ c.toNat ∧ c.toNat ≤ 57 := by
  simp [Char.isDigit] at h
  exact h

theorem digitChar_isDigit (n : ℕ) (h : n ≤ 9) : (digitChar n).isDigit = true := by
  unfold digitChar
  interval_cases n <;> decide

theorem digitChar_toNat (n : ℕ) (h : n ≤ 9) : (digitChar n).toNat = 48 + n := by
  unfold digitChar
  interval_cases n <;> decide

theorem digitChar_ne_zero (n : ℕ) (h1 : 1 ≤ n) (h9 : n ≤ 9) : digitChar n ≠ '0' := by
  unfold digitChar
  interval_cases n <;> decide

theorem digitsToNat_append_one (ds : List Char) (d : Char) :
    digitsToNat (ds ++ [d]) = 10 * digitsToNat ds + (d.toNat - 48) := by
  unfold digitsToNat
  rw [List.foldl_append]
  rfl

theorem natToDigitsAux_stable (f : ℕ) : ∀ g n, n < f → n < g →
    natToDigitsAux f n = natToDigitsAux g n := by
  induction f with
  | zero => omega
  | succ f ih =>
    intro g n hf hg
    cases g with
    | zero => omega
    | succ g =>
      simp only [natToDigitsAux]
      split_ifs with h10
      · rfl
      · rw [ih g (n / 10) (by omega) (by omega)]

theorem natToChars_unfold (n : ℕ) :
    natToChars n = if n < 10 then [digitChar n]
      else natToChars (n / 10) ++ [digitChar (n % 10)] := by
  show natToDigitsAux (n + 1) n = _
  simp only [natToDigitsAux]
  split_ifs with h
  · rfl
  · show natToDigitsAux n (n / 10) ++ [digitChar (n % 10)]
      = natToDigitsAux (n / 10 + 1) (n / 10) ++ [digitChar (n % 10)]
    rw [natToDigitsAux_stable n (n / 10 + 1) (n / 10) (by omega) (by omega)]

theorem natToChars_digits (n : ℕ) : ∀ c ∈ natToChars n, c.isDigit = true := by
  induction n using Nat.strong_induction_on with
  | _ n ih =>
    rw [natToChars_unfold]
    split_ifs with h
    · intro c hc
      simp at hc
      subst hc
      exact digitChar_isDigit n (by omega)
    · intro c hc
      rcases List.mem_append.mp hc with hc | hc
      · exact ih (n / 10) (by omega) c hc
      · simp at hc
        subst hc
        exact digitChar_isDigit (n % 10) (by omega)

theorem natToChars_ne_nil (n : ℕ) : natToChars n ≠ [] := by
  rw [natToChars_unfold]
  split_ifs <;> simp

theorem digitsToNat_natToChars (n : ℕ) : digitsToNat (natToChars n) = n := by
  induction n using Nat.strong_induction_on with
  | _ n ih =>
    rw [natToChars_unfold]
    split_ifs with h
    · show digitsToNat ([] ++ [digitChar n]) = n
      rw [digitsToNat_append_one, digitChar_toNat n (by omega)]
      simp [digitsToNat]
    · rw [digitsToNat_append_one, ih (n / 10) (by omega), digitChar_toNat (n % 10) (by omega)]
      omega

theorem natToChars_pos_head (n : ℕ) : 1 ≤ n → ∀ d t, natToChars n = d :: t → d ≠ '0' := by
  induction n using Nat.strong_induction_on with
  | _ n ih =>
    intro h1 d t hdt
    rw [natToChars_unfold] at hdt
    split_ifs at hdt with h
    · simp at hdt
      rw [← hdt.1]
      exact digitChar_ne_zero n (by omega) (by omega)
    · cases hq : natToChars (n / 10) with
      | nil => exact absurd hq (natToChars_ne_nil _)
      | cons d' t' =>
        rw [hq, List.cons_append, List.cons.injEq] at hdt
        rw [← hdt.1]
        exact ih (n / 10) (by omega) (by omega) d' t' hq

theorem natToChars_leading (n : ℕ) (d : Char) (t : List Char)
    (h : natToChars n = d :: t) (hd : d = '0') : t = [] := by
  by_cases h10 : n < 10
  · rw [natToChars_unfold, if_pos h10] at h
    simp at h
    exact h.2
  · exfalso
    exact natToChars_pos_head n (by omega) d t h hd

theorem takeWhile_all_append (p : Char → Bool) (xs ys : List Char)
    (h : ∀ x ∈ xs, p x = true) :
    (xs ++ ys).takeWhile p = xs ++ ys.takeWhile p ∧
    (xs ++ ys).dropWhile p = ys.dropWhile p := by
  induction xs with
  | nil => simp
  | cons x xs ih =>
    have hx : p x = true := h x (by simp)
    have ihr := ih (fun y hy => h y (by simp [hy]))
    simp only [List.cons_append, List.takeWhile_cons, List.dropWhile_cons, hx, if_pos]
    exact ⟨by rw [ihr.1], by rw [ihr.2]⟩

theorem takeWhile_not_head (p : Char → Bool) (ys : List Char)
    (h : ∀ c, ys.head? = some c → p c = false) :
    ys.takeWhile p = [] ∧ ys.dropWhile p = ys := by
  cases ys with
  | nil => simp
  | cons y ys =>
    have hy : p y = false := h y rfl
    simp [List.takeWhile_cons, List.dropWhile_cons, hy]

theorem parseJNum_natToChars (n : ℕ) (rest : List Char)
    (hrest : ∀ c, rest.head? = some c → c.isDigit = false) :
    parseJNum (natToChars n ++ rest) = some (n, rest) := by
  have hall := natToChars_digits n
  have hsplit := takeWhile_all_append (·.isDigit) (natToChars n) rest hall
  have hrest' := takeWhile_not_head (·.isDigit) rest hrest
  unfold parseJNum
  rw [hsplit.1, hrest'.1, List.append_nil, hsplit.2, hrest'.2]
  cases hnc : natToChars n with
  | nil => exact absurd hnc (natToChars_ne_nil n)
  | cons d t =>
    simp only
    rw [if_neg]
    · rw [← hnc, digitsToNat_natToChars]
    · rintro ⟨hd0, hne⟩
      exact hne (natToChars_leading n d t hnc hd0)

theorem char_beq_false (a b : Char) (h : a.toNat ≠ b.toNat) : (a == b) = false := by
  simp only [beq_eq_false_iff_ne, ne_eq]
  intro he
  subst he
  exact h rfl

theorem digit_not_lit (c : Char) (h : c.isDigit = true) :
    ('n' == c) = false ∧ ('t' == c) = false ∧ ('f' == c) = false ∧
    ¬(c = '"') ∧ ¬(c = '-') ∧ isJsonWs c = false := by
  obtain ⟨h1, h2⟩ := isDigit_toNat c h
  have e1 : ('n' : Char).toNat = 110 := by decide
  have e2 : ('t' : Char).toNat = 116 := by decide
  have e3 : ('f' : Char).toNat = 102 := by decide
  have e4 : ('"' : Char).toNat = 34 := by decide
  have e5 : ('-' : Char).toNat = 45 := by decide
  have e6 : (' ' : Char).toNat = 32 := by decide
  have e7 : ('\x09' : Char).toNat = 9 := by decide
  have e8 : ('\x0a' : Char).toNat = 10 := by decide
  have e9 : ('\x0d' : Char).toNat = 13 := by decide
  refine ⟨char_beq_false _ _ (by omega), char_beq_false _ _ (by omega),
    char_beq_false _ _ (by omega), ?_, ?_, ?_⟩
  · intro he
    rw [he] at h1
    omega
  · intro he
    rw [he] at h1
    omega
  · simp only [isJsonWs, Bool.or_eq_false_iff]
    exact ⟨⟨⟨char_beq_false _ _ (by omega), char_beq_false _ _ (by omega)⟩,
      char_beq_false _ _ (by omega)⟩, char_beq_false _ _ (by omega)⟩

/-! ### JSON string, scalar and member parsing round trips -/

theorem string_data_mk (l : List Char) : (String.mk l).data = l := rfl

theorem hexVal_hexCharL (n : ℕ) (h : n < 16) : hexVal (hexCharL n) = some n := by
  unfold hexVal hexCharL
  interval_cases n <;> decide

theorem parseJStr_quote_head (rest : List Char) : parseJStr ('"' :: rest) = some ([], rest) := by
  rw [parseJStr.eq_def]
  dsimp only
  rw [if_pos rfl]

theorem parseJStr_plain (c : Char) (rest : List Char) (h1 : ¬c = '"') (h2 : ¬c = '\\')
    (h3 : ¬c.toNat < 32) :
    parseJStr (c :: rest) = (parseJStr rest).map (fun p => (c :: p.1, p.2)) := by
  rw [parseJStr.eq_def]
  dsimp only
  rw [if_neg h1, if_neg h2, if_neg h3]

theorem parseJStr_esc (e : Char) (rest : List Char) (hne : ¬e = 'u') (ec : Char)
    (hec : escCharJ e = some ec) :
    parseJStr ('\\' :: e :: rest) = (parseJStr rest).map (fun p => (ec :: p.1, p.2)) := by
  rw [parseJStr.eq_def]
  dsimp only
  rw [if_neg (by decide : ¬('\\' : Char) = '"'), if_pos rfl, if_neg hne, hec]

theorem parseJStr_u (h1 h2 h3 h4 : Char) (a b c4 d : ℕ) (rest : List Char)
    (hv1 : hexVal h1 = some a) (hv2 : hexVal h2 = some b) (hv3 : hexVal h3 = some c4)
    (hv4 : hexVal h4 = some d) :
    parseJStr ('\\' :: 'u' :: h1 :: h2 :: h3 :: h4 :: rest) =
      (parseJStr rest).map (fun p => (Char.ofNat (a * 4096 + b * 256 + c4 * 16 + d) :: p.1, p.2)) := by
  rw [parseJStr.eq_def]
  dsimp only
  rw [if_neg (by decide : ¬('\\' : Char) = '"'), if_pos rfl, if_pos rfl, hv1, hv2, hv3, hv4]

theorem parseJStr_lit (ks rest : List Char)
    (h : ∀ c ∈ ks, ¬c = '"' ∧ ¬c = '\\' ∧ ¬c.toNat < 32) :
    parseJStr (ks ++ '"' :: rest) = some (ks, rest) := by
  induction ks with
  | nil => simpa using parseJStr_quote_head rest
  | cons c ks ih =>
    obtain ⟨hc1, hc2, hc3⟩ := h c (by simp)
    rw [List.cons_append, parseJStr_plain c _ hc1 hc2 hc3,
      ih (fun x hx => h x (by simp [hx]))]
    rfl

theorem parseJStr_qchar (c : Char) (l : List Char) :
    parseJStr (quoteJsonChar c ++ l) = (parseJStr l).map (fun p => (c :: p.1, p.2)) := by
  unfold quoteJsonChar
  split_ifs with e1 e2 e3 e4 e5 e6 e7 e8
  · subst e1
    rw [List.cons_append, List.cons_append, List.nil_append,
      parseJStr_esc '"' _ (by decide) '"' (by decide)]
  · subst e2
    rw [List.cons_append, List.cons_append, List.nil_append,
      parseJStr_esc '\\' _ (by decide) '\\' (by decide)]
  · subst e3
    rw [List.cons_append, List.cons_append, List.nil_append,
      parseJStr_esc 'b' _ (by decide) '\x08' (by decide)]
  · subst e4
    rw [List.cons_append, List.cons_append, List.nil_append,
      parseJStr_esc 't' _ (by decide) '\x09' (by decide)]
  · subst e5
    rw [List.cons_append, List.cons_append, List.nil_append,
      parseJStr_esc 'n' _ (by decide) '\x0a' (by decide)]
  · subst e6
    rw [List.cons_append, List.cons_append, List.nil_append,
      parseJStr_esc 'f' _ (by decide) '\x0c' (by decide)]
  · subst e7
    rw [List.cons_append, List.cons_append, List.nil_append,
      parseJStr_esc 'r' _ (by decide) '\x0d' (by decide)]
  · rw [List.cons_append, List.cons_append, List.cons_append, List.cons_append,
      List.cons_append, List.cons_append, List.nil_append,
      parseJStr_u '0' '0' (hexCharL (c.toNat / 16)) (hexCharL (c.toNat % 16))
        0 0 (c.toNat / 16) (c.toNat % 16) _ (by decide) (by decide)
        (hexVal_hexCharL _ (by omega)) (hexVal_hexCharL _ (by omega))]
    have harg : 0 * 4096 + 0 * 256 + c.toNat / 16 * 16 + c.toNat % 16 = c.toNat := by omega
    rw [harg, Char.ofNat_toNat]
  · rw [List.cons_append, List.nil_append, parseJStr_plain c _ e1 e2 e8]

theorem parseJStr_quote (cs rest : List Char) :
    parseJStr ((cs.map quoteJsonChar).flatten ++ '"' :: rest) = some (cs, rest) := by
  induction cs with
  | nil => simpa using parseJStr_quote_head rest
  | cons c cs ih =>
    rw [List.map_cons, List.flatten_cons, List.append_assoc, parseJStr_qchar, ih]
    rfl

theorem isPrefixOf_head_false (a c : Char) (as cs : List Char) (h : (a == c) = false) :
    (a :: as).isPrefixOf (c :: cs) = false := by
  simp [List.isPrefixOf, h]

theorem parseScalar_not_lit (c : Char) (rest : List Char)
    (hn : (('n' : Char) == c) = false) (ht : (('t' : Char) == c) = false)
    (hf : (('f' : Char) == c) = false) :
    parseScalar (c :: rest) =
      (if c = '"' then (parseJStr rest).map (fun p => (Json.str (String.mk p.1), p.2))
       else if c = '-' then (parseJNum rest).map (fun p => (Json.num (-(p.1 : ℤ)), p.2))
       else if c.isDigit then (parseJNum (c :: rest)).map (fun p => (Json.num (p.1 : ℤ), p.2))
       else none) := by
  unfold parseScalar
  rw [if_neg (by simp [isPrefixOf_head_false _ _ _ _ hn]),
    if_neg (by simp [isPrefixOf_head_false _ _ _ _ ht]),
    if_neg (by simp [isPrefixOf_head_false _ _ _ _ hf])]

theorem parseScalar_str (cs R : List Char) :
    parseScalar ('"' :: ((cs.map quoteJsonChar).flatten ++ '"' :: R)) =
      some (.str (String.mk cs), R) := by
  rw [parseScalar_not_lit '"' _ (by decide) (by decide) (by decide), if_pos rfl,
    parseJStr_quote]
  rfl

theorem parseScalar_nat (n : ℕ) (rest : List Char)
    (hrest : ∀ c, rest.head? = some c → c.isDigit = false) :
    parseScalar (natToChars n ++ rest) = some (.num (n : ℤ), rest) := by
  cases hnc : natToChars n with
  | nil => exact absurd hnc (natToChars_ne_nil n)
  | cons d t =>
    have hd : d.isDigit = true := natToChars_digits n d (by rw [hnc]; simp)
    obtain ⟨hn', ht', hf', hq', hm', hw'⟩ := digit_not_lit d hd
    show parseScalar ((d :: t) ++ rest) = some (.num (n : ℤ), rest)
    rw [List.cons_append, parseScalar_not_lit d _ hn' ht' hf',
      if_neg hq', if_neg hm', if_pos hd]
    have hP := parseJNum_natToChars n rest hrest
    rw [hnc, List.cons_append] at hP
    rw [hP]
    rfl

theorem parseScalar_int (i : ℤ) (rest : List Char)
    (hrest : ∀ c, rest.head? = some c → c.isDigit = false) :
    parseScalar (intToChars i ++ rest) = some (.num i, rest) := by
  by_cases h : i < 0
  · rw [intToChars, if_pos h, List.cons_append,
      parseScalar_not_lit '-' _ (by decide) (by decide) (by decide),
      if_neg (by decide), if_pos rfl, parseJNum_natToChars _ _ hrest]
    simp only [Option.map_some']
    rw [Int.toNat_of_nonneg (by omega : (0 : ℤ) ≤ -i), neg_neg]
  · rw [intToChars, if_neg h, parseScalar_nat _ _ hrest,
      Int.toNat_of_nonneg (by omega : (0 : ℤ) ≤ i)]

theorem skipWs_cons (c : Char) (l : List Char) (h : isJsonWs c = false) :
    skipWs (c :: l) = c :: l := by
  simp [skipWs, List.dropWhile_cons, h]

theorem skipWs_int (i : ℤ) (rest : List Char) :
    skipWs (intToChars i ++ rest) = intToChars i ++ rest := by
  rw [intToChars]
  split_ifs with h
  · rw [List.cons_append, skipWs_cons _ _ (by decide)]
  · cases hnc : natToChars i.toNat with
    | nil => exact absurd hnc (natToChars_ne_nil _)
    | cons d t =>
      have hd : d.isDigit = true := natToChars_digits _ d (by rw [hnc]; simp)
      show skipWs ((d :: t) ++ rest) = (d :: t) ++ rest
      rw [List.cons_append]
      exact skipWs_cons _ _ (digit_not_lit d hd).2.2.2.2.2

theorem parseMembers_cons (f : ℕ) (k V R : List Char)
    (hk : ∀ c ∈ k, ¬c = '"' ∧ ¬c = '\\' ∧ ¬c.toNat < 32) (v : Json)
    (hskip : skipWs (V ++ ',' :: R) = V ++ ',' :: R)
    (hval : parseScalar (V ++ ',' :: R) = some (v, ',' :: R)) :
    parseMembers (f + 1) ('"' :: (k ++ '"' :: ':' :: (V ++ ',' :: R))) =
      (parseMembers f R).map (fun p => ((String.mk k, v) :: p.1, p.2)) := by
  rw [parseMembers]
  rw [skipWs_cons _ _ (by decide)]
  dsimp only
  rw [if_pos rfl, parseJStr_lit k _ hk]
  dsimp only
  rw [skipWs_cons _ _ (by decide)]
  dsimp only
  rw [if_pos rfl, hskip, hval]
  dsimp only
  rw [skipWs_cons _ _ (by decide)]
  dsimp only
  rw [if_pos rfl]

theorem parseMembers_last (f : ℕ) (k V R : List Char)
    (hk : ∀ c ∈ k, ¬c = '"' ∧ ¬c = '\\' ∧ ¬c.toNat < 32) (v : Json)
    (hskip : skipWs (V ++ '\x7d' :: R) = V ++ '\x7d' :: R)
    (hval : parseScalar (V ++ '\x7d' :: R) = some (v, '\x7d' :: R)) :
    parseMembers (f + 1) ('"' :: (k ++ '"' :: ':' :: (V ++ '\x7d' :: R))) =
      some ([(String.mk k, v)], R) := by
  rw [parseMembers]
  rw [skipWs_cons _ _ (by decide)]
  dsimp only
  rw [if_pos rfl, parseJStr_lit k _ hk]
  dsimp only
  rw [skipWs_cons _ _ (by decide)]
  dsimp only
  rw [if_pos rfl, hskip, hval]
  dsimp only
  rw [skipWs_cons _ _ (by decide)]
  dsimp only
  rw [if_neg (by decide : ¬('\x7d' : Char) = ','), if_pos rfl]

theorem parseMembers_session (sub : String) (iat exp : ℤ) (f : ℕ) :
    parseMembers (f + 3)
      ('"' :: 's' :: 'u' :: 'b' :: '"' :: ':' :: '"' ::
        ((sub.data.map quoteJsonChar).flatten ++ ('"' :: ',' :: '"' :: 'i' :: 'a' :: 't' :: '"' :: ':' ::
          (intToChars iat ++ (',' :: '"' :: 'e' :: 'x' :: 'p' :: '"' :: ':' ::
            (intToChars exp ++ ['\x7d'])))))) =
      some ([("sub", .str sub), ("iat", .num iat), ("exp", .num exp)], []) := by
  set F := (sub.data.map quoteJsonChar).flatten with hF
  set R2 : List Char := '"' :: 'e' :: 'x' :: 'p' :: '"' :: ':' :: (intToChars exp ++ ['\x7d'])
    with hR2
  set R1 : List Char := '"' :: 'i' :: 'a' :: 't' :: '"' :: ':' :: (intToChars iat ++ (',' :: R2))
    with hR1
  have hskip1 : skipWs (('"' :: (F ++ ['"'])) ++ ',' :: R1) = ('"' :: (F ++ ['"'])) ++ ',' :: R1 := by
    rw [List.cons_append]
    exact skipWs_cons _ _ (by decide)
  have hval1 : parseScalar (('"' :: (F ++ ['"'])) ++ ',' :: R1) = some (.str sub, ',' :: R1) := by
    rw [List.cons_append, List.append_assoc]
    simp only [List.cons_append, List.nil_append]
    rw [hF, parseScalar_str sub.data (',' :: R1), string_mk_data]
  have s1 := parseMembers_cons (f + 2) ['s', 'u', 'b'] ('"' :: (F ++ ['"'])) R1
    (by decide) (.str sub) hskip1 hval1
  simp only [List.cons_append, List.nil_append, List.append_assoc] at s1
  rw [show f + 3 = f + 2 + 1 from rfl, s1]
  have hskip2 : skipWs (intToChars iat ++ ',' :: R2) = intToChars iat ++ ',' :: R2 :=
    skipWs_int iat (',' :: R2)
  have hval2 : parseScalar (intToChars iat ++ ',' :: R2) = some (.num iat, ',' :: R2) :=
    parseScalar_int iat (',' :: R2) (by intro c hc; simp at hc; subst hc; decide)
  have s2 := parseMembers_cons (f + 1) ['i', 'a', 't'] (intToChars iat) R2
    (by decide) (.num iat) hskip2 hval2
  simp only [List.cons_append, List.nil_append, List.append_assoc] at s2
  rw [hR1, show f + 2 = f + 1 + 1 from rfl, s2]
  have hskip3 : skipWs (intToChars exp ++ '\x7d' :: []) = intToChars exp ++ '\x7d' :: [] :=
    skipWs_int exp ('\x7d' :: [])
  have hval3 : parseScalar (intToChars exp ++ '\x7d' :: []) = some (.num exp, '\x7d' :: []) :=
    parseScalar_int exp ('\x7d' :: []) (by intro c hc; simp at hc; subst hc; decide)
  have s3 := parseMembers_last f ['e', 'x', 'p'] (intToChars exp) []
    (by decide) (.num exp) hskip3 hval3
  simp only [List.cons_append, List.nil_append, List.append_assoc] at s3
  rw [hR2, s3]
  rfl

theorem jsonParse_session (sub : String) (iat exp : ℤ) :
    jsonParse (stringifySession sub iat exp) =
      some (.obj [("sub", .str sub), ("iat", .num iat), ("exp", .num exp)]) := by
  have hA : ("\"sub\":\"" : String).data = ['"', 's', 'u', 'b', '"', ':', '"'] := rfl
  have hB : ("\",\"iat\":" : String).data = ['"', ',', '"', 'i', 'a', 't', '"', ':'] := rfl
  have hC : ((",\"exp\":" : String)).data = [',', '"', 'e', 'x', 'p', '"', ':'] := rfl
  have hdata : (stringifySession sub iat exp).data =
      '\x7b' :: '"' :: 's' :: 'u' :: 'b' :: '"' :: ':' :: '"' ::
        ((sub.data.map quoteJsonChar).flatten ++ ('"' :: ',' :: '"' :: 'i' :: 'a' :: 't' :: '"' :: ':' ::
          (intToChars iat ++ (',' :: '"' :: 'e' :: 'x' :: 'p' :: '"' :: ':' ::
            (intToChars exp ++ ['\x7d']))))) := by
    rw [stringifySession, string_data_mk, hA, hB, hC]
    simp only [List.cons_append, List.nil_append, List.append_assoc]
  have hlen2 : 2 ≤ (stringifySession sub iat exp).length := by
    show 2 ≤ (stringifySession sub iat exp).data.length
    rw [hdata]
    simp only [List.length_cons, List.length_append]
    omega
  obtain ⟨g, hg⟩ : ∃ g, (stringifySession sub iat exp).length + 1 = g + 3 :=
    ⟨(stringifySession sub iat exp).length - 2, by omega⟩
  unfold jsonParse
  rw [hg, hdata]
  unfold parseVal
  rw [skipWs_cons _ _ (by decide)]
  dsimp only
  rw [if_pos rfl, skipWs_cons _ _ (by decide)]
  dsimp only
  rw [if_neg (by decide : ¬('"' : Char) = '\x7d'), parseMembers_session sub iat exp g]
  simp only [Option.map_some']
  rw [if_pos (show skipWs ([] : List Char) = [] from rfl)]

theorem b64url_no_dot (bs : List ℕ) (h : ∀ b ∈ bs, b < 256) :
    ∀ c ∈ (b64url bs).data, c ≠ '.' := by
  intro c hc
  rw [b64url_data bs h] at hc
  rw [List.mem_map] at hc
  obtain ⟨x, hx, rfl⟩ := hc
  rw [List.mem_map] at hx
  obtain ⟨v, hv, rfl⟩ := hx
  exact b64Char_swap_ne_dot v (encVals_lt64 bs h v hv)

theorem jsGetField_session (vs vi ve : Json) :
    jsGetField (.obj [("sub", vs), ("iat", vi), ("exp", ve)]) "exp" = some ve ∧
    jsGetField (.obj [("sub", vs), ("iat", vi), ("exp", ve)]) "sub" = some vs := by
  constructor <;> rfl

/-- C2: for every subject, secret and ttl > 0 (and any HMAC whose output is
bytes), verifying a freshly issued token with the same secret at the same
instant succeeds: the payload parses back to the object with the issued
subject, iat and exp, and its `sub` field equals the subject issued for. -/
theorem C2_issue_verify_roundtrip (mac : MacFn) (sub secret : String) (now : ℕ) (ttl : ℤ)
    (hmac : ∀ s d, ∀ b ∈ mac s d, b < 256) (httl : 0 < ttl) :
    jwtVerifyHS256 mac secret (jwtSignHS256 mac sub secret now ttl) now =
      .ok (some (.obj [("sub", .str sub), ("iat", .num (now : ℤ)),
        ("exp", .num ((now : ℤ) + ttl))])) ∧
    jsGetField (.obj [("sub", .str sub), ("iat", .num (now : ℤ)),
        ("exp", .num ((now : ℤ) + ttl))]) "sub" = some (.str sub) := by
  refine ⟨?_, (jsGetField_session _ _ _).2⟩
  have httl0 : ¬ttl = 0 := by omega
  simp only [jwtSignHS256, if_neg httl0]
  have hHd : ∀ c ∈ (b64urlOfString headerJson).data, c ≠ '.' :=
    b64url_no_dot _ (utf8Bytes_lt256 _)
  have hPd : ∀ c ∈ (b64urlOfString (stringifySession sub (now : ℤ) ((now : ℤ) + ttl))).data,
      c ≠ '.' := b64url_no_dot _ (utf8Bytes_lt256 _)
  have hSd : ∀ c ∈ (hmacSign mac secret (b64urlOfString headerJson ++ "." ++
      b64urlOfString (stringifySession sub (now : ℤ) ((now : ℤ) + ttl)))).data, c ≠ '.' :=
    b64url_no_dot _ (hmac _ _)
  simp only [jwtVerifyHS256]
  rw [jsSplitDot_three _ _ _ hHd hPd hSd]
  dsimp only
  have hSb : b64ToBytes (hmacSign mac secret (b64urlOfString headerJson ++ "." ++
      b64urlOfString (stringifySession sub (now : ℤ) ((now : ℤ) + ttl)))) =
      some (mac secret (b64urlOfString headerJson ++ "." ++
        b64urlOfString (stringifySession sub (now : ℤ) ((now : ℤ) + ttl)))) :=
    b64ToBytes_b64url _ (hmac _ _)
  rw [hSb]
  dsimp only
  rw [if_pos (timingSafeEq_self _)]
  have hPb : b64ToBytes (b64urlOfString (stringifySession sub (now : ℤ) ((now : ℤ) + ttl))) =
      some (utf8Bytes (stringifySession sub (now : ℤ) ((now : ℤ) + ttl))) :=
    b64ToBytes_b64url _ (utf8Bytes_lt256 _)
  rw [hPb]
  dsimp only
  rw [utf8_roundtrip, jsonParse_session]
  dsimp only
  simp only [jsTruthy, Bool.not_true]
  rw [if_neg (by decide : ¬(false = true))]
  rw [(jsGetField_session (Json.str sub) (Json.num (now : ℤ)) (Json.num ((now : ℤ) + ttl))).1]
  dsimp only
  have hne : ((((now : ℤ) + ttl) != 0) : Bool) = true := by
    simp only [bne_iff_ne, ne_eq]
    omega
  simp only [hne, Bool.not_true]
  rw [if_neg (by decide : ¬(false = true))]
  simp only [jsToNumber]
  have hgt : ¬((now : ℕ) : ℚ) > ((((now : ℤ) + ttl) : ℤ) : ℚ) := by
    push_cast
    have h0 : (0 : ℚ) < (ttl : ℚ) := by exact_mod_cast httl
    linarith
  rw [if_neg hgt]

/-- Witness for C2 at a concrete subject, secret, time and ttl (with a
constant-byte MAC). -/
theorem C2_issue_verify_roundtrip_witness :
    jwtVerifyHS256 (fun _ _ => List.replicate 32 1) "s"
        (jwtSignHS256 (fun _ _ => List.replicate 32 1) "u" "s" 5 60) 5 =
      .ok (some (.obj [("sub", .str "u"), ("iat", .num ((5 : ℕ) : ℤ)),
        ("exp", .num (((5 : ℕ) : ℤ) + 60))])) ∧
    jsGetField (.obj [("sub", .str "u"), ("iat", .num ((5 : ℕ) : ℤ)),
        ("exp", .num (((5 : ℕ) : ℤ) + 60))]) "sub" = some (.str "u") :=
  C2_issue_verify_roundtrip (fun _ _ => List.replicate 32 1) "u" "s" 5 60
    (fun s d b hb => by simp at hb; omega) (by decide)

/-- C3 counterexample: the tampered token differs from the valid issued
token only in the last character of its signature segment, and that change
is a single bit flip (65 xor 67 = 2); yet verification still returns the
payload, because atob-style decoding discards the nonzero slack bits of the
final base64 digit and the byte comparison then succeeds. -/
theorem C3_slack_bit_counterexample :
    jsSplitDot c3Token =
      ["eyJhbGciOiJIUzI1NiIsInR5cCI6IkpXVCJ9", "eyJzdWIiOiJ1IiwiaWF0IjowLCJleHAiOjEwMH0",
        "AAAAAAAAAAAAAAAAAAAAAAAAAAAAAAAAAAAAAAAAAAA"] ∧
    jsSplitDot c3Tampered =
      ["eyJhbGciOiJIUzI1NiIsInR5cCI6IkpXVCJ9", "eyJzdWIiOiJ1IiwiaWF0IjowLCJleHAiOjEwMH0",
        "AAAAAAAAAAAAAAAAAAAAAAAAAAAAAAAAAAAAAAAAAAC"] ∧
    ('A'.toNat ^^^ 'C'.toNat) = 2 ∧
    jwtVerifyHS256 macZero "s" c3Tampered 0 =
      .ok (some (.obj [("sub", .str "u"), ("iat", .num 0), ("exp", .num 100)])) := by
  refine ⟨by decide, by decide, by decide, ?_⟩
  rfl

/-- C3 amended: signature checking compares the DECODED BYTES of the
signature segment against the recomputed MAC, so any three-segment token
whose signature decodes to different bytes is rejected with null — but bit
flips confined to the discarded base64 slack bits do not change the decoded
bytes and are accepted. -/
theorem C3_sig_tamper_amended (mac : MacFn) (secret h p s' : String) (now : ℕ)
    (hmac : ∀ b ∈ mac secret (h ++ "." ++ p), b < 256)
    (hh : ∀ c ∈ h.data, c ≠ '.') (hp : ∀ c ∈ p.data, c ≠ '.')
    (hs : ∀ c ∈ s'.data, c ≠ '.')
    (bs : List ℕ) (hdec : b64ToBytes s' = some bs)
    (hne : bs ≠ mac secret (h ++ "." ++ p)) :
    jwtVerifyHS256 mac secret (h ++ "." ++ p ++ "." ++ s') now = .ok none := by
  simp only [jwtVerifyHS256]
  rw [jsSplitDot_three _ _ _ hh hp hs]
  dsimp only
  rw [hdec]
  dsimp only
  have hSb : b64ToBytes (hmacSign mac secret (h ++ "." ++ p)) =
      some (mac secret (h ++ "." ++ p)) := b64ToBytes_b64url _ hmac
  rw [hSb]
  dsimp only
  rw [if_neg (fun hc => hne ((timingSafeEq_iff _ _).1 hc))]

/-- Witness for the amended C3 theorem at concrete inputs: signature "BA"
decodes to bytes different from the MAC, so verification returns null. -/
theorem C3_sig_tamper_amended_witness :
    jwtVerifyHS256 (fun _ _ => [0]) "k" ("a" ++ "." ++ "b" ++ "." ++ "BA") 0 = .ok none :=
  C3_sig_tamper_amended (fun _ _ => [0]) "k" "a" "b" "BA" 0 (by decide) (by decide)
    (by decide) (by decide) [4] (by decide) (by decide)

/-- C4 counterexample: a three-segment token whose signature segment is not
decodable base64 makes the verifier throw rather than return the null
outcome: the signature decode runs outside the try block. -/
theorem C4_exception_counterexample :
    jwtVerifyHS256 (fun _ _ => [1]) "s" "a.b.!" 0 = .error () := rfl

/-- C4 amended: verification throws exactly on three-segment tokens whose
signature segment (or whose recomputed expected signature) fails base64
decoding, and every listed failure mode collapses to the same null outcome:
wrong segment count, signature byte mismatch, undecodable or unparsable
payload, falsy payload, absent or falsy exp field, and an expired exp all
return null — never a payload and never a distinguishable error. -/
theorem C4_exception_amended (mac : MacFn) (secret token : String) (now : ℕ) :
    (jwtVerifyHS256 mac secret token now = .error () ↔
      ∃ h p s, jsSplitDot token = [h, p, s] ∧
        (b64ToBytes s = none ∨
          b64ToBytes (hmacSign mac secret (h ++ "." ++ p)) = none)) ∧
    ((jsSplitDot token).length ≠ 3 → jwtVerifyHS256 mac secret token now = .ok none) ∧
    (∀ h p s sb eb, jsSplitDot token = [h, p, s] → b64ToBytes s = some sb →
      b64ToBytes (hmacSign mac secret (h ++ "." ++ p)) = some eb →
      timingSafeEq sb eb = false → jwtVerifyHS256 mac secret token now = .ok none) ∧
    (∀ h p s sb eb, jsSplitDot token = [h, p, s] → b64ToBytes s = some sb →
      b64ToBytes (hmacSign mac secret (h ++ "." ++ p)) = some eb →
      timingSafeEq sb eb = true →
      (b64ToBytes p = none ∨
        (∃ pb, b64ToBytes p = some pb ∧ jsonParse (utf8DecodeString pb) = none)) →
      jwtVerifyHS256 mac secret token now = .ok none) ∧
    (∀ h p s sb eb pb payload, jsSplitDot token = [h, p, s] → b64ToBytes s = some sb →
      b64ToBytes (hmacSign mac secret (h ++ "." ++ p)) = some eb →
      timingSafeEq sb eb = true → b64ToBytes p = some pb →
      jsonParse (utf8DecodeString pb) = some payload →
      (jsTruthy payload = false ∨ jsGetField payload "exp" = none ∨
        (∃ ex, jsGetField payload "exp" = some ex ∧ jsTruthy ex = false)) →
      jwtVerifyHS256 mac secret token now = .ok none) ∧
    (∀ h p s sb eb pb payload ex x, jsSplitDot token = [h, p, s] → b64ToBytes s = some sb →
      b64ToBytes (hmacSign mac secret (h ++ "." ++ p)) = some eb →
      timingSafeEq sb eb = true → b64ToBytes p = some pb →
      jsonParse (utf8DecodeString pb) = some payload →
      jsGetField payload "exp" = some ex → jsTruthy ex = true → jsToNumber ex = some x →
      (now : ℚ) > x → jwtVerifyHS256 mac secret token now = .ok none) := by
  refine ⟨?_, ?_, ?_, ?_, ?_, ?_⟩
  · simp only [jwtVerifyHS256]
    rcases hsp : jsSplitDot token with _ | ⟨h, _ | ⟨p, _ | ⟨s, _ | ⟨x, xs⟩⟩⟩⟩
    · dsimp only
      refine iff_of_false (fun hE => Except.noConfusion hE) ?_
      rintro ⟨h', p', s', hsp', -⟩
      simp at hsp'
    · dsimp only
      refine iff_of_false (fun hE => Except.noConfusion hE) ?_
      rintro ⟨h', p', s', hsp', -⟩
      simp at hsp'
    · dsimp only
      refine iff_of_false (fun hE => Except.noConfusion hE) ?_
      rintro ⟨h', p', s', hsp', -⟩
      simp at hsp'
    · dsimp only
      rcases hbs : b64ToBytes s with _ | sb
      · dsimp only
        exact iff_of_true rfl ⟨h, p, s, rfl, Or.inl hbs⟩
      · dsimp only
        rcases hbe : b64ToBytes (hmacSign mac secret (h ++ "." ++ p)) with _ | eb
        · dsimp only
          exact iff_of_true rfl ⟨h, p, s, rfl, Or.inr hbe⟩
        · dsimp only
          refine iff_of_false ?_ ?_
          · intro hE
            repeat' split at hE
            all_goals exact Except.noConfusion hE
          · rintro ⟨h', p', s', hsp', hbad⟩
            simp at hsp'
            obtain ⟨rfl, rfl, rfl⟩ := hsp'
            rcases hbad with hbad | hbad
            · rw [hbs] at hbad
              exact Option.noConfusion hbad
            · rw [hbe] at hbad
              exact Option.noConfusion hbad
    · dsimp only
      refine iff_of_false (fun hE => Except.noConfusion hE) ?_
      rintro ⟨h', p', s', hsp', -⟩
      simp at hsp'
  · intro hlen
    simp only [jwtVerifyHS256]
    rcases hsp : jsSplitDot token with _ | ⟨h, _ | ⟨p, _ | ⟨s, _ | ⟨x, xs⟩⟩⟩⟩
    · rfl
    · rfl
    · rfl
    · rw [hsp] at hlen
      simp at hlen
    · rfl
  · intro h p s sb eb hsp hsb hse hts
    simp only [jwtVerifyHS256]
    rw [hsp]
    dsimp only
    rw [hsb]
    dsimp only
    rw [hse]
    dsimp only
    rw [hts, if_neg (by decide : ¬(false = true))]
  · intro h p s sb eb hsp hsb hse hts hbad
    simp only [jwtVerifyHS256]
    rw [hsp]
    dsimp only
    rw [hsb]
    dsimp only
    rw [hse]
    dsimp only
    rw [hts, if_pos rfl]
    rcases hbad with hbn | ⟨pb, hpb, hjn⟩
    · rw [hbn]
    · rw [hpb]
      dsimp only
      rw [hjn]
  · intro h p s sb eb pb payload hsp hsb hse hts hpb hjp hbad
    simp only [jwtVerifyHS256]
    rw [hsp]
    dsimp only
    rw [hsb]
    dsimp only
    rw [hse]
    dsimp only
    rw [hts, if_pos rfl, hpb]
    dsimp only
    rw [hjp]
    dsimp only
    rcases hbad with hft | hbad2
    · rw [hft]
      simp only [Bool.not_false, if_true]
    · by_cases hpt : jsTruthy payload = true
      · rw [hpt]
        simp only [Bool.not_true]
        rw [if_neg (by decide : ¬(false = true))]
        rcases hbad2 with hgn | ⟨ex, hex, hxf⟩
        · rw [hgn]
        · rw [hex]
          dsimp only
          rw [hxf]
          simp only [Bool.not_false, if_true]
      · have hf : jsTruthy payload = false := by
          revert hpt
          cases jsTruthy payload <;> simp
        rw [hf]
        simp only [Bool.not_false, if_true]
  · intro h p s sb eb pb payload ex x hsp hsb hse hts hpb hjp hex hxt hxn hgt
    simp only [jwtVerifyHS256]
    rw [hsp]
    dsimp only
    rw [hsb]
    dsimp only
    rw [hse]
    dsimp only
    rw [hts, if_pos rfl, hpb]
    dsimp only
    rw [hjp]
    dsimp only
    by_cases hpt : jsTruthy payload = true
    · rw [hpt]
      simp only [Bool.not_true]
      rw [if_neg (by decide : ¬(false = true)), hex]
      dsimp only
      rw [hxt]
      simp only [Bool.not_true]
      rw [if_neg (by decide : ¬(false = true)), hxn]
      dsimp only
      rw [if_pos hgt]
    · have hf : jsTruthy payload = false := by
        revert hpt
        cases jsTruthy payload <;> simp
      rw [hf]
      simp only [Bool.not_false, if_true]

/-- Witness for the amended C4 theorem: a one-segment token falls to the
null outcome by segment count, and a three-segment token whose signature
bytes differ from the recomputed MAC falls to the same null outcome. -/
theorem C4_exception_amended_witness :
    jwtVerifyHS256 (fun _ _ => [2]) "q" "abc" 0 = .ok none ∧
    jwtVerifyHS256 (fun _ _ => [2]) "q" "a.b.BA" 0 = .ok none :=
  ⟨(C4_exception_amended (fun _ _ => [2]) "q" "abc" 0).2.1 (by decide),
   (C4_exception_amended (fun _ _ => [2]) "q" "a.b.BA" 0).2.2.1 "a" "b" "BA" [4] [2]
     (by decide) (by decide) (by decide) (by decide)⟩

end Towel
